import Mathlib

/-!
Verification of the `markdown-print-tools` repository: a shallow embedding of
the pagination cutter (`paginate-dom`, `src/unnamed/part_002`), the document
assembly engine (`src/paginate-html-to-pdf/index.ts` and `bin.ts`) and the
growable write buffer, together with theorems settling the frozen claims.

Modelling conventions:
* JavaScript numbers are modelled as `ℚ` (layout metrics, unit factors) or
  `Nat`/`Int` (counters, buffer sizes).  All quantities the claims touch are
  exact in this range, so float rounding is immaterial to the statements.
* DOM element trees are modelled as an inductive tree carrying the layout
  metrics (`getBoundingClientRect` results, computed margins) as node data,
  since the cut-computation phase of `paginate` is read-only on the DOM.
* Fallible code (`throw new Error(...)`) is modelled with `Except String`.
-/

namespace PaginateDom

/-- JS `\s`-style whitespace test used by `String.prototype.split(/\s+/)`. -/
def isJsSpace (c : Char) : Bool :=
  c = ' ' || c = '\t' || c = '\n' || c = '\r' || c = '\x0b' || c = '\x0c'

mutual
/-- Accumulating state of `split(/\s+/)`: building the current field. -/
def jsSplitWsChars : List Char → List Char → List String
  | [], cur => [String.mk cur.reverse]
  | c :: rest, cur =>
    if isJsSpace c then String.mk cur.reverse :: jsSplitWsSkip rest
    else jsSplitWsChars rest (c :: cur)

/-- Skipping the rest of a maximal whitespace run in `split(/\s+/)`. -/
def jsSplitWsSkip : List Char → List String
  | [] => [""]
  | c :: rest => if isJsSpace c then jsSplitWsSkip rest else jsSplitWsChars rest [c]
end

/-- JS `s.split(/\s+/, limit)`: split on maximal whitespace runs (leading or
trailing runs produce empty fields) and keep at most `limit` fields. -/
def jsSplitWs (s : String) (limit : Nat) : List String :=
  (jsSplitWsChars s.data []).take limit

/-- Numeric value of a non-empty digit string. -/
def natOfDigits (ds : List Char) : Nat :=
  ds.foldl (fun n c => 10 * n + (c.toNat - 48)) 0

/-- The unit suffixes accepted by `RX_LENGTH = /^(\d+)(px|cm|mm|in|pc|pt)$/`. -/
def lengthUnits : List String := ["px", "cm", "mm", "in", "pc", "pt"]

/-- Match of `RX_LENGTH`: an integer magnitude followed by a unit. -/
def parseLength (s : String) : Option (Nat × String) :=
  let ds := s.data.takeWhile Char.isDigit
  let rest := String.mk (s.data.dropWhile Char.isDigit)
  if ds.isEmpty then none
  else if rest ∈ lengthUnits then some (natOfDigits ds, rest) else none

/-- The `unit` conversion table of `paginate` (css pixels per unit).  The
source stores JS float literals; they are transcribed as exact decimals. -/
def unit_factor : String → ℚ
  | "px" => 1
  | "cm" => 37.79527559055118
  | "mm" => 3.779527559055118
  | "in" => 96
  | "pc" => 16
  | "pt" => 1.3333333333333333
  | _ => 0

/-- `length_to_px`: parse `<integer><unit>` and convert to css pixels,
throwing `invalid length` on anything else (e.g. a fractional magnitude). -/
def length_to_px (s : String) : Except String ℚ :=
  match parseLength s with
  | none => .error ("invalid length: " ++ s)
  | some (n, u) => .ok ((n : ℚ) * unit_factor u)

/-- `check_length`: validate a length token, returning it unchanged. -/
def check_length (s : String) : Except String String :=
  match parseLength s with
  | none => .error ("invalid length: " ++ s)
  | some _ => .ok s

/-- A paper size as a pair of length tokens. -/
structure PaperSize where
  width : String
  height : String
deriving DecidableEq, Repr

/-- The ten named paper presets of `paginate`. -/
def papers : List (String × PaperSize) :=
  [("A5", ⟨"148mm", "210mm"⟩),
   ("A4", ⟨"210mm", "297mm"⟩),
   ("A3", ⟨"297mm", "420mm"⟩),
   ("B5", ⟨"176mm", "250mm"⟩),
   ("B4", ⟨"250mm", "353mm"⟩),
   ("JIS-B5", ⟨"182mm", "257mm"⟩),
   ("JIS-B4", ⟨"257mm", "364mm"⟩),
   ("letter", ⟨"8.5in", "11in"⟩),
   ("legal", ⟨"8.5in", "14in"⟩),
   ("ledger", ⟨"11in", "17in"⟩)]

/-- `papers[name]` lookup (`paper in papers` membership mirrors `isSome`). -/
def papers_lookup (s : String) : Option PaperSize :=
  (papers.find? (fun p => p.1 = s)).map (fun p => p.2)

/-- A parsed paper token: a named preset or an explicit size. -/
inductive PaperFormat where
  | preset (name : String)
  | custom (size : PaperSize)
deriving DecidableEq, Repr

/-- `parse_paper`: `undefined`/`null`/empty is "no override"; a preset name is
kept symbolic; otherwise two space-separated validated lengths. -/
def parse_paper (paper : Option String) : Except String (Option PaperFormat) :=
  match paper with
  | none => .ok none
  | some s =>
    if s = "" then .ok none
    else if (papers_lookup s).isSome then .ok (some (.preset s))
    else do
      let toks ← (jsSplitWs s 2).mapM check_length
      match toks with
      | [w, h] => .ok (some (.custom ⟨w, h⟩))
      | _ => .error ("invalid paper: " ++ s)

/-- A margin box of four length tokens. -/
structure Margin where
  top : String
  right : String
  bottom : String
  left : String
deriving DecidableEq, Repr

/-- `parse_paper_margin`: one validated length (uniform margins) or four
validated lengths (top, right, bottom, left); anything else is invalid.
Each split field is validated by `check_length` before the arity check,
mirroring `paper_margin.split(/\s+/, 4).map(check_length)`. -/
def parse_paper_margin (paper_margin : Option String) :
    Except String (Option Margin) :=
  match paper_margin with
  | none => .ok none
  | some s =>
    if s = "" then .ok none
    else do
      let toks ← (jsSplitWs s 4).mapM check_length
      match toks with
      | [t, r, b, l] => .ok (some ⟨t, r, b, l⟩)
      | [t] => .ok (some ⟨t, t, t, t⟩)
      | _ => .error ("invalid paper_margin: " ++ s)

/-- `paper_size = typeof paper !== "object" ? papers[paper] : paper`. -/
def resolve_paper_size : PaperFormat → Option PaperSize
  | .preset n => papers_lookup n
  | .custom sz => some sz

/-- The per-container metric prelude of `paginate` (part_002 lines 574-578):
`margin_top`, `margin_bottom` and the orientation-adjusted `page_height` are
all parsed with `length_to_px`; the result is the content height. -/
def container_metrics (paper_size : PaperSize) (margin : Margin)
    (orientation : String) : Except String ℚ := do
  let margin_top ← length_to_px margin.top
  let margin_bottom ← length_to_px margin.bottom
  let page_height ← length_to_px
    (if orientation = "portrait" then paper_size.height else paper_size.width)
  .ok (page_height - margin_top - margin_bottom)

/-- The default margin `"2cm"` expanded to the four sides, as
`create_containers` does for a string-valued `paper_margin`. -/
def default_margin : Margin := ⟨"2cm", "2cm", "2cm", "2cm"⟩

/-! ### Template renderer (`clone_element`, part_002 lines 295-317, 523-545)

Header/footer templates are modelled as flat elements in an element store
(the document): tag name, attribute list, and the serialized `innerHTML`
string.  `clone_element` reads the template's markup, performs the textual
substitutions and writes them into a freshly created element; store-passing
makes "the original template is never mutated" a checkable statement. -/

/-- A stored element: tag name, attributes, serialized inner markup. -/
structure TElem where
  tagName : String
  attrs : List (String × String)
  innerHTML : String
deriving DecidableEq, Repr

/-- The element store; element ids are list indices, `createElement`
appends. -/
structure TDom where
  elems : List TElem
deriving DecidableEq, Repr

/-- Element lookup. -/
def TDom.get? (d : TDom) (i : Nat) : Option TElem := d.elems.get? i

/-- `document.createElement(tag)`: a fresh element with no attributes and
empty content. -/
def TDom.createElement (d : TDom) (tag : String) : TDom × Nat :=
  (⟨d.elems ++ [⟨tag, [], ""⟩]⟩, d.elems.length)

/-- DOM `setAttribute` on an attribute list: replace or append. -/
def setAttrList (attrs : List (String × String)) (name val : String) :
    List (String × String) :=
  if attrs.any (fun a => a.1 = name) then
    attrs.map (fun a => if a.1 = name then (name, val) else a)
  else attrs ++ [(name, val)]

/-- Update the element at `i` (no-op on an absent id). -/
def TDom.modify (d : TDom) (i : Nat) (f : TElem → TElem) : TDom :=
  match d.elems.get? i with
  | none => d
  | some e => ⟨d.elems.set i (f e)⟩

/-- `el.setAttribute(name, val)`. -/
def TDom.setAttribute (d : TDom) (i : Nat) (name val : String) : TDom :=
  d.modify i (fun e => { e with attrs := setAttrList e.attrs name val })

/-- Attribute lookup with the DOM's `className` default `""`. -/
def getAttrD (e : TElem) (name : String) (dflt : String) : String :=
  match e.attrs.find? (fun a => a.1 = name) with
  | some a => a.2
  | none => dflt

/-- `copy_element_empty(element, mark_cut)`: a fresh element of the same tag,
all attributes copied, and `" __cut"` appended to the class when marking. -/
def copy_element_empty (d : TDom) (i : Nat) (mark_cut : Bool) : TDom × Nat :=
  match d.get? i with
  | none => (d, d.elems.length)
  | some el =>
    let (d, j) := d.createElement el.tagName
    let d := el.attrs.foldl (fun d a => d.setAttribute j a.1 a.2) d
    let d :=
      if mark_cut then
        d.modify j (fun e =>
          { e with attrs := setAttrList e.attrs "class" (getAttrD e "class" "" ++ " __cut") })
      else d
    (d, j)

/-- Match of the placeholder regex for word `w` (shape `\x7b\x7b\s*w\s*\x7d\x7d`)
at the head of `s`; returns the match length.  Both regexes built by
`create_page` have exactly this shape. -/
def matchPlaceholderAt (w : List Char) : List Char → Option Nat
  | '{' :: '{' :: rest =>
    let sp1 := (rest.takeWhile isJsSpace).length
    let rest1 := rest.dropWhile isJsSpace
    if rest1.take w.length = w then
      let rest2 := rest1.drop w.length
      let sp2 := (rest2.takeWhile isJsSpace).length
      match rest2.dropWhile isJsSpace with
      | '}' :: '}' :: _ => some (2 + sp1 + w.length + sp2 + 2)
      | _ => none
    else none
  | _ => none

/-- Leftmost placeholder match: start index and length. -/
def findPlaceholder (w : List Char) : List Char → Option (Nat × Nat)
  | [] => none
  | c :: rest =>
    match matchPlaceholderAt w (c :: rest) with
    | some len => some (0, len)
    | none => (findPlaceholder w rest).map (fun p => (p.1 + 1, p.2))

/-- JS `s.replace(rx, rep)` with a non-global regex: replace only the first
match (the replacement strings here are digit strings, so `$`-patterns do not
arise). -/
def jsReplaceFirst (w : String) (rep : String) (s : String) : String :=
  match findPlaceholder w.data s.data with
  | none => s
  | some (i, len) => String.mk (s.data.take i ++ rep.data ++ s.data.drop (i + len))

/-- One substitution of the `variables` list: the placeholder word and the
replacement string. -/
structure TemplateVar where
  word : String
  rep : String
deriving DecidableEq, Repr

/-- `clone_element(element, variables)`: `null` in, `null` out; otherwise copy
the element empty (unmarked), apply every substitution to the template's
markup, and set the clone's markup to the result. -/
def clone_element (d : TDom) (i : Option Nat) (vars : List TemplateVar) :
    TDom × Option Nat :=
  match i with
  | none => (d, none)
  | some i =>
    match d.get? i with
    | none => (d, none)
    | some el =>
      let (d, j) := copy_element_empty d i false
      let html := vars.foldl (fun h v => jsReplaceFirst v.word v.rep h) el.innerHTML
      (d.modify j (fun e => { e with innerHTML := html }), some j)

/-- The `variables` list built by `create_page` (part_002 lines 532-535):
`\x7b\x7b\s*page\s*\x7d\x7d` becomes the page number string and
`\x7b\x7b\s*num_pages\s*\x7d\x7d` the page count string. -/
def create_page_variables (page : Int) (num_pages : Nat) : List TemplateVar :=
  [⟨"page", toString page⟩, ⟨"num_pages", toString num_pages⟩]

/-- The header/footer materialization of `create_page` (lines 536-541): clone
with the substitutions, then stamp the page number attribute on the clone. -/
def render_header_footer (d : TDom) (tmpl : Option Nat) (page : Int)
    (num_pages : Nat) : TDom × Option Nat :=
  let (d, c) := clone_element d tmpl (create_page_variables page num_pages)
  match c with
  | none => (d, none)
  | some j => (d.setAttribute j "page" (toString page), some j)

/-! ### The pagination cutter (part_002 lines 126-679)

The cut-computation phase of `paginate` is read-only on the DOM, so the DOM
is an immutable tree whose elements carry their layout metrics
(`getBoundingClientRect().top/.bottom`, the computed `marginTop` and
`marginBottom`) as node data.  Every node has a unique id, standing in for JS
object identity (`cut_elements` membership, `!==` comparisons).  A `<header
page="N">` attribute is modelled as `pageAttr = some N` (present, non-empty,
numeric — the only shape the feature is used with).  `wholeText` of a text
node is modelled as its own content (no adjacent text nodes arise in any
input considered here).

Layout quantities (rect offsets, margins, heights) are modelled as `ℤ`,
integer css pixels.  The cutter only ever adds, subtracts, maximizes and
order-compares these quantities — it never divides or scales — so its
control flow factors through any ordered additive group; `ℤ` keeps every
run kernel-computable, and integer metrics are exactly representable values
of the JS numbers the browser supplies. -/

section Cutter

/-- Layout data of one element node. -/
structure ElemData where
  id : Nat
  tagName : String
  top : ℤ
  bottom : ℤ
  marginTop : ℤ
  marginBottom : ℤ
  pageAttr : Option Int
deriving DecidableEq, Repr

/-- A DOM node: element with children, or text. -/
inductive DNode where
  | elem (d : ElemData) (children : List DNode)
  | text (id : Nat) (content : String)
deriving Repr

/-- Node identity. -/
def DNode.nodeId : DNode → Nat
  | .elem d _ => d.id
  | .text i _ => i

/-- `node instanceof HTMLElement`. -/
def DNode.isElem : DNode → Bool
  | .elem _ _ => true
  | .text _ _ => false

/-- Tag name of an element (`"#text"` placeholder for text nodes, which the
source never asks). -/
def DNode.tagOf : DNode → String
  | .elem d _ => d.tagName
  | .text _ _ => "#text"

/-- Children of a node. -/
def DNode.childrenOf : DNode → List DNode
  | .elem _ cs => cs
  | .text _ _ => []

mutual
/-- JS `node.textContent`: concatenation of all descendant text. -/
def DNode.textContent : DNode → String
  | .elem _ cs => textContentList cs
  | .text _ s => s

/-- `textContent` of a node list. -/
def textContentList : List DNode → String
  | [] => ""
  | n :: rest => DNode.textContent n ++ textContentList rest
end

/-- A node together with its sibling context: `before` holds the previous
siblings (nearest first), `after` the following siblings (nearest first).
This gives the `previousSibling`/`nextSibling` navigation the source uses. -/
structure Loc where
  before : List DNode
  node : DNode
  after : List DNode
deriving Repr

/-- `loc.nextSibling`. -/
def Loc.nextSibling? (l : Loc) : Option Loc :=
  match l.after with
  | [] => none
  | n :: rest => some ⟨l.node :: l.before, n, rest⟩

/-- `loc.previousSibling`. -/
def Loc.prevSibling? (l : Loc) : Option Loc :=
  match l.before with
  | [] => none
  | n :: rest => some ⟨rest, n, l.node :: l.after⟩

/-- `node.firstChild` (any node type). -/
def firstChildLoc? : DNode → Option Loc
  | .elem _ (c :: rest) => some ⟨[], c, rest⟩
  | _ => none

/-- Forward walk to the first element at or after the given position. -/
def scanForward : List DNode → DNode → List DNode → Option Loc
  | before, n, after =>
    if n.isElem then some ⟨before, n, after⟩
    else match after with
      | [] => none
      | m :: rest => scanForward (n :: before) m rest

/-- `next_element_sibling(node)`: first element at or after `node`. -/
def next_element_sibling : Option Loc → Option Loc
  | none => none
  | some l => scanForward l.before l.node l.after

/-- Backward walk to the first element at or before the given position. -/
def scanBackward : List DNode → DNode → List DNode → Option Loc
  | before, n, after =>
    if n.isElem then some ⟨before, n, after⟩
    else match before with
      | [] => none
      | m :: rest => scanBackward rest m (n :: after)

/-- `previous_element_sibling(node)`: first element at or before `node`. -/
def previous_element_sibling : Option Loc → Option Loc
  | none => none
  | some l => scanBackward l.before l.node l.after

/-- `container.firstElementChild` as a starting location. -/
def firstElementChildLoc (cs : List DNode) : Option Loc :=
  match cs with
  | [] => none
  | c :: rest => scanForward [] c rest

/-- A measurement snapshot `CutNode = { tagName, node, top, bottom }`. -/
structure CutNode where
  tagName : String
  loc : Loc
  top : ℤ
  bottom : ℤ
deriving Repr

/-- `cut_from_element(el)`. -/
def cut_from_element (l : Option Loc) : Option CutNode :=
  match l with
  | none => none
  | some l =>
    match l.node with
    | .elem d _ => some ⟨d.tagName, l, d.top, d.bottom⟩
    | .text _ _ => none

/-- The scanning context of `paginate` (lines 126-132): current header and
footer (by element id), page counter, page-count cell value, the last
scanned cutable tag name (initially `"HEADER"`), and the `cut_elements` set.
`page_resets` is ghost instrumentation only: it counts executions of the
`<header page>` reset (lines 235-238) and affects no other field. -/
structure ScanSt where
  header : Option Nat
  footer : Option Nat
  page : Int
  num_pages : Nat
  last_cutable_tag_name : String
  cut_elements : List Nat
  page_resets : Nat
deriving Repr

/-- The initial context of one `paginate` invocation. -/
def initScanSt : ScanSt :=
  { header := none, footer := none, page := 0, num_pages := 0,
    last_cutable_tag_name := "HEADER", cut_elements := [], page_resets := 0 }

/-- The fixed `cut_tag_names` set (lines 136-146). -/
def cut_tag_names : List String :=
  ["UL", "OL", "LI", "P", "PRE", "DIV", "TABLE", "TBODY", "TR",
   "SECTION", "BLOCKQUOTE", "IMG", "H1", "H2", "H3", "H4", "H5", "H6", "HR"]

/-- The fixed `force_closest_tag_names` set. -/
def force_closest_tag_names : List String := ["PRE"]

/-- The default of the `force_cut_tag_names` option. -/
def default_force_cut_tag_names : List String := ["H1", "H2", "HR"]

/-- `always_overcut_tag_names.get(t) || 0`. -/
def always_overcut_rank (t : String) : Nat :=
  if t = "H1" then 6 else if t = "H2" then 5 else if t = "H3" then 4
  else if t = "H4" then 3 else if t = "H5" then 2 else if t = "H6" then 1
  else 0

/-- `is_cut_block` (the `DEBUG` logging aside). -/
def is_cut_block (t : String) : Bool := t ∈ cut_tag_names

/-- `WHITESPACE_RX.test(text.wholeText)`. -/
def is_text_content_whitespace (s : String) : Bool := s.data.all isJsSpace

/-- `ENDS_WITH_SEE = /:\s*$/` applied to a text content. -/
def ends_with_colon (s : String) : Bool :=
  match s.data.reverse.dropWhile isJsSpace with
  | ':' :: _ => true
  | _ => false

/-- The configurable knobs of `paginate` the cutter reads. -/
structure Config where
  max_overcut : ℤ
  force_cut_tag_names : List String
  first_page_element_no_margin_top : String → Bool

/-- The option defaults: `force_cut_tag_names = ["H1","H2","HR"]` and
margin-top suppression for every tag but `H1`.  `max_overcut` defaults to
`length_to_px("8cm")` = 302.36...px; 302 is its integer-pixel stand-in (no
claim below depends on the overcut budget's value). -/
def defaultConfig : Config :=
  { max_overcut := 302,
    force_cut_tag_names := default_force_cut_tag_names,
    first_page_element_no_margin_top := fun t => t != "H1" }

/-- Result of one `next_cut` scan: a cut candidate, or the final
`could_have_cut` flag. -/
inductive NextCutRes where
  | cut (c : CutNode)
  | flag (could_have_cut : Bool)
deriving Repr

/-- The sibling scan `next_cut(node, bot, lvl)` (lines 227-268), iterating
from the node given by `before`/`nodes` context.  `HEADER` records itself and
applies the page-number reset when it carries a `page` attribute; `FOOTER`
records itself; a cutable block updates `last_cutable_tag_name` and is
returned as the cut when it overflows `bot` — or, at the top level, when its
tag is in the force-cut set and the previously scanned cutable tag was not a
`HEADER` — provided it was not already cut. -/
def next_cut_go (cfg : Config) (bot : ℤ) (lvl : Nat) :
    List DNode → List DNode → Bool → ScanSt → NextCutRes × ScanSt
  | _, [], chc, st => (.flag chc, st)
  | before, n :: rest, chc, st =>
    match n with
    | .text _ _ => next_cut_go cfg bot lvl (n :: before) rest chc st
    | .elem d _ =>
      if d.tagName = "HEADER" then
        let st := { st with header := some d.id, last_cutable_tag_name := "HEADER" }
        let st :=
          match d.pageAttr with
          | some p => { st with page := p - 1, num_pages := 0,
                                page_resets := st.page_resets + 1 }
          | none => st
        next_cut_go cfg bot lvl (n :: before) rest chc st
      else if d.tagName = "FOOTER" then
        next_cut_go cfg bot lvl (n :: before) rest chc { st with footer := some d.id }
      else if is_cut_block d.tagName then
        let can_force_cut := st.last_cutable_tag_name ≠ "HEADER"
        let st := { st with last_cutable_tag_name := d.tagName }
        if (d.bottom > bot ∨
            (lvl = 0 ∧ d.tagName ∈ cfg.force_cut_tag_names ∧ can_force_cut)) ∧
           d.id ∉ st.cut_elements then
          (.cut ⟨d.tagName, ⟨before, n, rest⟩, d.top, d.bottom⟩,
           { st with cut_elements := d.id :: st.cut_elements })
        else next_cut_go cfg bot lvl (n :: before) rest true st
      else next_cut_go cfg bot lvl (n :: before) rest chc st

/-- `next_cut` proper: the scan starting with `could_have_cut = false`. -/
def next_cut (cfg : Config) (bot : ℤ) (lvl : Nat) (before : List DNode)
    (nodes : List DNode) (st : ScanSt) : NextCutRes × ScanSt :=
  next_cut_go cfg bot lvl before nodes false st

/-- The `cut === true` recovery of `next_cut_stack` (lines 204-209): pop
ancestors until one has a next sibling; the scan resumes there.  The popped
entries stay removed from the stack. -/
def popToNextSibling : List CutNode → Option (List CutNode × Loc)
  | [] => none
  | p :: rest =>
    match p.loc.nextSibling? with
    | some l => some (rest, l)
    | none => popToNextSibling rest

/-- `next_cut_stack(node)` (lines 195-219): repeatedly scan from the current
node at the current depth; on a candidate, push it and descend into its
children unless it is force-closest or starts past the boundary; on an
exhausted level with candidates (`cut === true`), pop to an ancestor's next
sibling; on an exhausted level without candidates, stop.  The stack is kept
innermost-first (`head` = `closest`, last = `outer`); `fuel` bounds the
loop. -/
def next_cut_stack (cfg : Config) (bot : ℤ) :
    Nat → Option Loc → List CutNode → ScanSt → List CutNode × ScanSt
  | 0, _, stack, st => (stack, st)
  | _ + 1, none, stack, st => (stack, st)
  | fuel + 1, some l, stack, st =>
    let (res, st) := next_cut cfg bot stack.length l.before (l.node :: l.after) st
    match res with
    | .flag true =>
      match popToNextSibling stack with
      | none => ([], st)
      | some (stack', l') => next_cut_stack cfg bot fuel (some l') stack' st
    | .flag false => (stack, st)
    | .cut c =>
      let stack := c :: stack
      if c.top < bot ∧ c.tagName ∉ force_closest_tag_names then
        next_cut_stack cfg bot fuel (firstChildLoc? c.loc.node) stack st
      else next_cut_stack cfg bot fuel none stack st

/-- The heading-backtrack search inside `fix_weird_cut_positions` (lines
328-337): walk back through previous element siblings while they stay within
the overcut window; stop with a hit on a strictly higher-ranked heading, with
a miss on leaving the window or exhausting the siblings. -/
def always_cut_search (max_overcut : ℤ) (expected : ℤ) (order : Nat) :
    Nat → CutNode → Option CutNode
  | fuel, c =>
    if expected - c.top > max_overcut then none
    else if order < always_overcut_rank c.tagName then some c
    else
      match fuel, cut_from_element (previous_element_sibling c.loc.prevSibling?) with
      | _, none => none
      | 0, some _ => none
      | fuel + 1, some c' => always_cut_search max_overcut expected order fuel c'

/-- `fix_weird_cut_positions(closest, expected_page_bottom)` (lines 319-360):
repeatedly move the cut to the previous element sibling when (a) a
higher-ranked heading sits within the overcut window behind it, (b) the
previous sibling is a paragraph ending in a colon within the window, or (c)
the cut splits a table body from its head.  Stops when no rule fires. -/
def fix_weird_cut_positions (cfg : Config) : Nat → CutNode → ℤ → CutNode
  | 0, closest, _ => closest
  | fuel + 1, closest, expected =>
    match cut_from_element (previous_element_sibling closest.loc.prevSibling?) with
    | none => closest
    | some pac =>
      let order := always_overcut_rank closest.tagName
      let alwaysHit :=
        always_cut_search cfg.max_overcut expected order (pac.loc.before.length + 1) pac
      let replaced :=
        if alwaysHit.isSome then true
        else
          let overcut := expected - pac.top
          if overcut < cfg.max_overcut ∧ pac.tagName = "P" ∧
             ends_with_colon pac.loc.node.textContent then true
          else decide (closest.tagName = "TBODY" ∧ pac.tagName = "THEAD")
      if replaced then fix_weird_cut_positions cfg fuel pac expected
      else closest

/-- `table_thead(element)`: the `THEAD` first element child of a `TABLE`. -/
def table_thead (n : DNode) : Option ElemData :=
  match n with
  | .elem d cs =>
    if d.tagName = "TABLE" then
      match (cs.find? DNode.isElem) with
      | some (.elem td _) => if td.tagName = "THEAD" then some td else none
      | _ => none
    else none
  | .text _ _ => none

/-- `structure_top_height(stack, outer, closest)` (lines 371-393): the
carried-over top overhead of the next page.  The stack is innermost-first
(head = `closest`, last = `outer`); the loop body skips `closest`, so it
folds over the tail. -/
def structure_top_height (cfg : Config) (stack : List CutNode) : ℤ :=
  let outerPart : ℤ :=
    match stack.getLast? with
    | some o =>
      match o.loc.node with
      | .elem d _ =>
        if cfg.first_page_element_no_margin_top d.tagName then 0 else d.marginTop
      | .text _ _ => 0
    | none => 0
  stack.tail.foldl
    (fun acc brk =>
      match next_element_sibling (firstChildLoc? brk.loc.node) with
      | none => acc
      | some fl =>
        match fl.node with
        | .elem fd _ =>
          let m1 : ℤ :=
            if cfg.first_page_element_no_margin_top fd.tagName then 0
            else max 0 (fd.top - brk.top)
          let m2 : ℤ :=
            match table_thead fl.node with
            | some td => td.bottom - td.top
            | none => 0
          acc + m1 + m2
        | .text _ _ => acc)
    outerPart

/-- The `while (pcb && !cut_tag_names.has(...))` walk of lines 607-609: the
nearest previous element sibling whose tag is cutable. -/
def prev_cutable_block (fuel : Nat) (start : Option Loc) : Option Loc :=
  match fuel, previous_element_sibling start with
  | _, none => none
  | 0, some _ => none
  | fuel + 1, some l =>
    if l.node.tagOf ∈ cut_tag_names then some l
    else prev_cutable_block fuel l.prevSibling?

/-- The `while (closest !== outer)` refinement loop (lines 597-630) over the
innermost-first stack.  Entered only while the stack has at least two
entries (`closest` and `outer` are then distinct objects): fix the top entry,
absorb an immediately preceding whitespace text node, then either commit
(`break`) — possibly retargeting the cut to the node after the nearest
previous cutable block when the current cut starts past the boundary — or
pop the top entry and continue. -/
def refine_closest (cfg : Config) (expected : ℤ) : Nat → List CutNode → List CutNode
  | 0, stack => stack
  | fuel + 1, stack =>
    match stack with
    | [] => []
    | closest0 :: restStack =>
      if restStack.isEmpty then stack
      else
        let closest :=
          fix_weird_cut_positions cfg (closest0.loc.before.length + 1) closest0 expected
        let closest :=
          match closest.loc.prevSibling? with
          | some pl =>
            match pl.node with
            | .text _ s =>
              if is_text_content_whitespace s then
                { closest with loc := pl, tagName := "#spaces" }
              else closest
            | .elem _ _ => closest
          | none => closest
        match closest.loc.prevSibling? with
        | some prevLoc =>
          if closest.top > expected then
            let pcb := prev_cutable_block (prevLoc.before.length + 1) (some prevLoc)
            match pcb with
            | some p =>
              match p.nextSibling?, p.node with
              | some r, .elem pd _ =>
                let closest :=
                  if r.node.nodeId ≠ closest.loc.node.nodeId then
                    { tagName := "#text", loc := r,
                      top := pd.bottom + pd.marginBottom,
                      bottom := pd.bottom + pd.marginBottom }
                  else closest
                closest :: restStack
              | _, _ => refine_closest cfg expected fuel restStack
            | none => refine_closest cfg expected fuel restStack
          else closest :: restStack
        | none => refine_closest cfg expected fuel restStack

/-- The whole refinement step of one loop iteration (lines 597-633): run the
`while` loop, then — when `closest === outer`, i.e. a single-entry stack —
apply `fix_weird_cut_positions` to that entry as line 632 does. -/
def refine_stack (cfg : Config) (expected : ℤ) (fuel : Nat)
    (stack : List CutNode) : List CutNode :=
  let stack := refine_closest cfg expected fuel stack
  match stack with
  | [c] => [fix_weird_cut_positions cfg (c.loc.before.length + 1) c expected]
  | _ => stack

/-- One committed cut (`CutPage`, minus the node references that only the
materialization phase consumes). -/
structure CutRecord where
  page : Int
  header : Option Nat
  footer : Option Nat
  top : ℤ
  parents_top_height : ℤ
  expected_page_bottom : ℤ
  next_expected_page_bottom : ℤ
  closest_tag : String
deriving DecidableEq, Repr

/-- The `first` record of a container (page number, header, footer). -/
structure FirstRecord where
  page : Int
  header : Option Nat
  footer : Option Nat
deriving DecidableEq, Repr

/-- The state threaded through a container's cutting pass. -/
structure PassSt where
  scan : ScanSt
  expected_page_bottom : ℤ
  first : Option FirstRecord
  cuts : List CutRecord
  stack : List CutNode
deriving Repr

/-- Fuel bounds for the two nested loops of the pass. -/
structure PassFuel where
  scan_fuel : Nat
  refine_fuel : Nat
deriving Repr

/-- The cut record one loop iteration commits (lines 636-667): the new page
number (skipping one ahead on the container's first commit), the current
header/footer, the structural overhead of the refined stack, and the current
and next expected page bottoms (`next = closest.top + content_height -
parents_top_height`). -/
def commit_record (cfg : Config) (content_height top : ℤ) (st : PassSt)
    (closest : CutNode) (rest : List CutNode) : CutRecord :=
  let pth := structure_top_height cfg (closest :: rest)
  { page := (if st.cuts.isEmpty then st.scan.page + 1 else st.scan.page) + 1,
    header := st.scan.header, footer := st.scan.footer,
    top := top, parents_top_height := pth,
    expected_page_bottom := st.expected_page_bottom,
    next_expected_page_bottom := closest.top + content_height - pth,
    closest_tag := closest.tagName }

/-- The `while (stack.length)` loop of `paginate` (lines 590-678).  Each
iteration refines the cut stack, assigns the page numbers (also recording the
container's first page on the first commit), computes the structural
overhead and the next expected boundary, commits the cut, throws
`infinite loop detected` when the boundary fails to advance, and rescans
from the outer cut node against the new boundary. -/
def paginate_pass (cfg : Config) (pf : PassFuel) (content_height : ℤ)
    (top : ℤ) : Nat → PassSt → Except String (PassSt)
  | 0, _ => .error "out of fuel"
  | fuel + 1, st =>
    match st.stack with
    | [] => .ok st
    | s0 :: srest =>
      match refine_stack cfg st.expected_page_bottom pf.refine_fuel (s0 :: srest) with
      | [] => .error "out of fuel"
      | closest :: rest =>
        let outer := (closest :: rest).getLast (List.cons_ne_nil _ _)
        let firstCommit := st.cuts.isEmpty
        let first :=
          if firstCommit then some ⟨st.scan.page + 1, st.scan.header, st.scan.footer⟩
          else st.first
        let cutRec := commit_record cfg content_height top st closest rest
        let cuts := st.cuts ++ [cutRec]
        if cutRec.next_expected_page_bottom ≤ st.expected_page_bottom then
          .error "infinite loop detected"
        else
          let scan :=
            { st.scan with
                page := cutRec.page,
                num_pages := st.scan.num_pages + (if firstCommit then 2 else 1) }
          let (stack', scan') :=
            next_cut_stack cfg cutRec.next_expected_page_bottom pf.scan_fuel
              (some outer.loc) [] scan
          paginate_pass cfg pf content_height top fuel
            { scan := scan',
              expected_page_bottom := cutRec.next_expected_page_bottom,
              first := first, cuts := cuts, stack := stack' }

/-- One container's cutting pass (lines 586-678): the initial expected bottom
is the container top plus content height plus top margin; the initial stack
is scanned from the container's first element child; then the commit loop
runs. -/
def paginate_container (cfg : Config) (pf : PassFuel) (content_height : ℤ)
    (margin_top : ℤ) (container_top : ℤ) (children : List DNode)
    (scan0 : ScanSt) (fuel : Nat) : Except String (PassSt) :=
  let expected := container_top + content_height + margin_top
  let (stack, scan) :=
    next_cut_stack cfg expected pf.scan_fuel (firstElementChildLoc children) [] scan0
  paginate_pass cfg pf content_height container_top fuel
    { scan := scan, expected_page_bottom := expected,
      first := none, cuts := [], stack := stack }

/-- The page-number sequence of the produced `Page` list of one container:
`create_pages` materializes the cuts in reverse order and reverses the
result, so the pages are the `first` page (whose number stays at the
initializer `-1` when no cut ever fired) followed by the cut pages in
discovery order. -/
def pagesOf (st : PassSt) : List Int :=
  (match st.first with | some f => f.page | none => -1) ::
    st.cuts.map (fun r => r.page)

/-- The successor state one committed loop iteration hands to the next
iteration of `paginate_pass` (a factoring of the `fuel + 1` branch after the
loop-detection check: new scan, boundary, `first`, cut list and rescanned
stack). -/
def pass_step_state (cfg : Config) (pf : PassFuel) (content_height top : ℤ)
    (st : PassSt) (closest : CutNode) (rest : List CutNode) : PassSt :=
  let cutRec := commit_record cfg content_height top st closest rest
  let firstCommit := st.cuts.isEmpty
  let scan :=
    { st.scan with
        page := cutRec.page,
        num_pages := st.scan.num_pages + (if firstCommit then 2 else 1) }
  let (stack', scan') :=
    next_cut_stack cfg cutRec.next_expected_page_bottom pf.scan_fuel
      (some ((closest :: rest).getLast (List.cons_ne_nil _ _)).loc) [] scan
  { scan := scan',
    expected_page_bottom := cutRec.next_expected_page_bottom,
    first := if firstCommit then some ⟨st.scan.page + 1, st.scan.header, st.scan.footer⟩
             else st.first,
    cuts := st.cuts ++ [cutRec], stack := stack' }

/-- Ghost-instrumentation ordering between scan states: the reset counter is
monotone, and when it did not move the page counter did not move either (the
`<header page>` reset of lines 235-238 is the only write to `page` inside the
scan). -/
def resetsOrd (st st' : ScanSt) : Prop :=
  st.page_resets ≤ st'.page_resets ∧
    (st'.page_resets = st.page_resets → st'.page = st.page)

end Cutter

/-- Error-projection helper for stating which error a run raised. -/
def exceptError? {β : Type} : Except String β → Option String
  | .error e => some e
  | .ok _ => none

end PaginateDom

namespace PdfAssembly

/-- `const MB = 1 << 20`. -/
def MB : Nat := 1048576

/-- JS `x | 0` on an integral value: wrap into signed 32-bit range. -/
def int32_wrap (x : Int) : Int := (x + 2 ^ 31) % 2 ^ 32 - 2 ^ 31

/-- The growable write buffer `PDFWStreamForBuffer`: a byte array of the
current capacity (`data.length` is the capacity) and a write position. -/
structure PDFWStreamForBuffer where
  _position : Nat
  data : List Nat
deriving DecidableEq, Repr

/-- `Buffer.set(bytes, pos)`: overwrite `bytes` starting at `pos`. -/
def listSetAt (data : List Nat) (pos : Nat) (bytes : List Nat) : List Nat :=
  data.take pos ++ bytes ++ data.drop (pos + bytes.length)

namespace PDFWStreamForBuffer

/-- The constructor: `Buffer.alloc(Math.max(capacity | 0, 1 * MB))`,
zero-filled. -/
def init (capacity : Int) : PDFWStreamForBuffer :=
  { _position := 0, data := List.replicate (max (int32_wrap capacity) (MB : Int)).toNat 0 }

/-- `write(bytes)`: grow on overflow by the lesser of the current capacity and
`32 * MB`, rounding the new capacity up to a multiple of that growth step
(`Math.ceil(next_pos / growth_rate) * growth_rate`), copying only the bytes
written so far (`this.data.subarray(0, this._position)`); then store the bytes
at the current position, advance it, and return `bytes.length`. -/
def write (st : PDFWStreamForBuffer) (bytes : List Nat) :
    PDFWStreamForBuffer × Nat :=
  let next_pos := st._position + bytes.length
  let data :=
    if next_pos > st.data.length then
      let growth_rate := min st.data.length (32 * MB)
      let capacity := ((next_pos + growth_rate - 1) / growth_rate) * growth_rate
      listSetAt (List.replicate capacity 0) 0 (st.data.take st._position)
    else st.data
  let data := listSetAt data st._position bytes
  ({ _position := next_pos, data := data }, bytes.length)

/-- `getCurrentPosition()`. -/
def getCurrentPosition (st : PDFWStreamForBuffer) : Nat := st._position

/-- `getData()` / the finalized exact-length slice. -/
def getData (st : PDFWStreamForBuffer) : List Nat :=
  st.data.take st._position

end PDFWStreamForBuffer

/-- One collected TOC mark of `bin.ts`: heading text, index of the page the
heading sits on, and the heading tag name. -/
structure TocMark where
  title : String
  page_idx : Nat
  tagName : String
deriving DecidableEq, Repr

/-- A nested outline entry (`type Outline = { title, page_idx, childs? }`). -/
inductive Outline where
  | mk (title : String) (page_idx : Nat) (childs : List Outline)
deriving Repr

/-- Title accessor. -/
def Outline.title : Outline → String
  | .mk t _ _ => t

/-- Page-index accessor. -/
def Outline.page_idx : Outline → Nat
  | .mk _ p _ => p

/-- Children accessor. -/
def Outline.childs : Outline → List Outline
  | .mk _ _ c => c

/-- `+tagName.substring(1)`: the numeric heading level of `"H1"`..`"H6"`. -/
def headingLevel (tagName : String) : Nat :=
  PaginateDom.natOfDigits (tagName.data.drop 1)

/-- In-place update of the entry at index `i` of an outline forest. -/
def modifyAt : List Outline → Nat → (Outline → Outline) → List Outline
  | [], _, _ => []
  | p :: os, 0, f => f p :: os
  | p :: os, n + 1, f => p :: modifyAt os n f

/-- Append `o` to the child list of the node addressed by `path` (an empty
path appends at the top level).  This emulates `top.childs.push(outline)` on
the mutable JS structure. -/
def appendChildAt : List Nat → List Outline → Outline → List Outline
  | [], os, o => os ++ [o]
  | i :: rest, os, o =>
    modifyAt os i (fun p => Outline.mk p.title p.page_idx (appendChildAt rest p.childs o))

/-- Node lookup by path (used to compute the path of a freshly pushed child). -/
def getAtPath : List Outline → List Nat → Option Outline
  | _, [] => none
  | os, i :: rest =>
    match os.get? i with
    | none => none
    | some o => if rest.isEmpty then some o else getAtPath o.childs rest

/-- State of the `toc` stack builder: the accumulated top-level list and the
stack of `(level, path-to-node)` pairs (head = top of stack). -/
structure TocSt where
  toc : List Outline
  stack : List (Nat × List Nat)
deriving Repr

/-- One step of the `toc` callback of `bin.ts` (lines 185-202): pop while the
stack top's level is `≥` the mark's level; append at top level if the stack
emptied, else as a child of the stack top; push the new node. -/
def buildTocStep (st : TocSt) (m : TocMark) : TocSt :=
  let lvl := headingLevel m.tagName
  let stack := st.stack.dropWhile (fun p => decide (lvl ≤ p.1))
  let entry : Outline := .mk m.title m.page_idx []
  match stack with
  | [] =>
    { toc := st.toc ++ [entry], stack := [(lvl, [st.toc.length])] }
  | (_, ppath) :: _ =>
    let childCount := match getAtPath st.toc ppath with
      | some n => n.childs.length
      | none => 0
    { toc := appendChildAt ppath st.toc entry,
      stack := (lvl, ppath ++ [childCount]) :: stack }

/-- The full `toc` callback: fold the marks through `buildTocStep`. -/
def buildToc (marks : List TocMark) : List Outline :=
  (marks.foldl buildTocStep ⟨[], []⟩).toc

/-- One emitted outline dictionary: object id, `Title`, `Parent`, the page
object referenced by `Dest`, and the optional `Count`/`First`/`Last` and
`Next`/`Prev` links, exactly the keys `writeOutlines` writes. -/
structure OutlineObj where
  id : Nat
  title : String
  parent : Nat
  dest_page_id : Nat
  count : Option Nat
  first : Option Nat
  last : Option Nat
  next : Option Nat
  prev : Option Nat
deriving DecidableEq, Repr

/-- Emission of the entries of one sibling list, left to right (the `forEach`
body of `writeOutlines`); `emitChild` performs the recursive emission of a
child list. -/
def writeOutlinesGo (page_ids : List Nat)
    (emitChild : List Outline → Nat → Nat → List OutlineObj × List Nat × Nat)
    (ids : List Nat) (n : Nat) (parent : Nat) :
    Nat → List Outline → Nat → List OutlineObj × Nat
  | _, [], ctr => ([], ctr)
  | i, o :: rest, ctr =>
    let id := ids.getD i 0
    let (cobjs, child_ids, ctr) :=
      if o.childs.isEmpty then ([], [], ctr)
      else emitChild o.childs id ctr
    let obj : OutlineObj :=
      { id := id, title := o.title, parent := parent,
        dest_page_id := page_ids.getD o.page_idx 0,
        -- the `Count` quirk: the SIBLING list length `outlines.length`
        count := if o.childs.isEmpty then none else some n,
        first := child_ids.head?,
        last := child_ids.getLast?,
        next := if i + 1 < n then ids.get? (i + 1) else none,
        prev := if 0 < i then ids.get? (i - 1) else none }
    let (objs, ctr) := writeOutlinesGo page_ids emitChild ids n parent (i + 1) rest ctr
    (cobjs ++ obj :: objs, ctr)

/-- `writeOutlines(ctx, outlines, parent, page_ids)`: allocate one id per
sibling first (`outlines.map(() => allocateNewObjectID())`), then emit each
entry, recursing into its children (which allocate and emit before the parent
dictionary is written).  `fuel` bounds the nesting depth; callers pass more
fuel than the tree is deep. -/
def writeOutlinesF : Nat → List Nat → List Outline → Nat → Nat →
    List OutlineObj × List Nat × Nat
  | 0, _, _, _, ctr => ([], [], ctr)
  | fuel + 1, page_ids, outlines, parent, ctr =>
    let n := outlines.length
    let ids := List.range' ctr n
    let (objs, ctr') :=
      writeOutlinesGo page_ids (writeOutlinesF fuel page_ids) ids n parent 0 outlines (ctr + n)
    (objs, ids, ctr')

mutual
/-- Size of an outline entry (an executable fuel bound for the emitter). -/
def Outline.size : Outline → Nat
  | .mk _ _ cs => 1 + sizeOutlines cs

/-- Total size of an outline forest. -/
def sizeOutlines : List Outline → Nat
  | [] => 0
  | o :: rest => Outline.size o + sizeOutlines rest
end

/-- The root `Outlines` dictionary written by `writeOutline`. -/
structure OutlineRoot where
  id : Nat
  count : Nat
  first : Option Nat
  last : Option Nat
deriving DecidableEq, Repr

/-- `writeOutline(ctx, outlines, page_ids)`: `null` for an empty entry list,
otherwise allocate the root id, emit all entries, then emit the root. -/
def writeOutline (page_ids : List Nat) (outlines : List Outline) (ctr : Nat) :
    Option (OutlineRoot × List OutlineObj) × Nat :=
  if outlines.isEmpty then (none, ctr)
  else
    let outline := ctr
    let (objs, outline_ids, ctr') :=
      writeOutlinesF (sizeOutlines outlines + 1) page_ids outlines outline (ctr + 1)
    (some ({ id := outline, count := outline_ids.length,
             first := outline_ids.head?, last := outline_ids.getLast? }, objs), ctr')

/-- One source page of an input stream: its object id in the source document
and whether the page dictionary has an `Annots` entry. -/
structure PdfPage where
  src_id : Nat
  annots : Bool
deriving DecidableEq, Repr

/-- One input page-stream: its raw bytes, its parsed pages, and its named
destination table (`none` when the catalog has no `Dests`). -/
structure PdfChunk where
  bytes : List Nat
  pages : List PdfPage
  dests : Option (List (String × String))
deriving DecidableEq, Repr

/-- One page copied into the destination document: the freshly allocated page
object id and whether the deferred `Annots` copy hook fired for it. -/
structure CopiedPage where
  page_id : Nat
  annots_copied : Bool
deriving DecidableEq, Repr

/-- The `for (let i = 0; i < parser.getPagesCount(); i++)` loop of
`copyPages`: copy each source page under a freshly allocated object id, with
the deferred `OnPageWrite` hook firing for pages carrying `Annots`. -/
def copyPagesGo : List PdfPage → List CopiedPage → List Nat → Nat →
    List CopiedPage × List Nat × Nat
  | [], ps, ids, ctr => (ps, ids, ctr)
  | p :: rest, ps, ids, ctr =>
    copyPagesGo rest (ps ++ [⟨ctr, p.annots⟩]) (ids ++ [ctr]) (ctr + 1)

/-- `copyPages(page_ids, combined_dests, w, src)`: copy each source page under
a new object id (the deferred `OnPageWrite` hook copies `Annots` when
present), collect the new page ids, and hand back the source's destination
table for the later combined-dests pass. -/
def copyPages (ctr : Nat) (chunk : PdfChunk) :
    List CopiedPage × List Nat × Option (List (String × String)) × Nat :=
  let (pages, ids, ctr) := copyPagesGo chunk.pages [] [] ctr
  (pages, ids, chunk.dests, ctr)

/-- The `for (let pdf_chunk of pdf_chunks) copyPages(...)` loop body: all
chunks in order, threading the id allocator and accumulating the pages, the
`page_ids` and the collected destination tables (`combined_dests`). -/
def copyAllChunksGo : List PdfChunk → List CopiedPage → List Nat →
    List (List (String × String)) → Nat →
    List CopiedPage × List Nat × List (List (String × String)) × Nat
  | [], ps, ids, tabs, ctr => (ps, ids, tabs, ctr)
  | c :: cs, ps, ids, tabs, ctr =>
    let (cps, cids, dests, ctr') := copyPages ctr c
    copyAllChunksGo cs (ps ++ cps) (ids ++ cids)
      (tabs ++ (match dests with | some t => [t] | none => [])) ctr'

/-- The whole copy loop, starting from empty accumulators and object id 1. -/
def copyAllChunks (chunks : List PdfChunk) :
    List CopiedPage × List Nat × List (List (String × String)) × Nat :=
  copyAllChunksGo chunks [] [] [] 1

/-- Execution of the collected `combined_dests` closures: each writes all of
its table's entries into the single destination dictionary, in order.  No
deduplication of names is performed anywhere. -/
def combineDests (tables : List (List (String × String))) :
    List (String × String) :=
  tables.foldl (fun d tbl => d ++ tbl) []

/-- The merged output document, as far as the assembly code shapes it: the
copied pages, the combined destination dictionary (if any closure was
collected), the synthesized outline (bin.ts only), and the catalog
augmentations written by the `OnCatalogWrite` handler. -/
structure MergedDoc where
  pages : List CopiedPage
  page_ids : List Nat
  dest_entries : Option (List (String × String))
  dests_obj : Option Nat
  outline : Option OutlineRoot
  outline_objs : List OutlineObj
  catalog_outlines : Option Nat
  catalog_page_mode_use_outlines : Bool
  catalog_dests : Option Nat
deriving DecidableEq, Repr

/-- The merge path of `index.ts` `renderPdf` (lines 124-156): copy all chunks,
combine destinations, and augment the catalog with `Dests` only. -/
def assemble_index (chunks : List PdfChunk) : MergedDoc :=
  let (pages, page_ids, tables, ctr) := copyAllChunks chunks
  let hasDests := !tables.isEmpty
  { pages := pages, page_ids := page_ids,
    dest_entries := if hasDests then some (combineDests tables) else none,
    dests_obj := if hasDests then some ctr else none,
    outline := none, outline_objs := [],
    catalog_outlines := none,
    catalog_page_mode_use_outlines := false,
    catalog_dests := if hasDests then some ctr else none }

/-- The merge path of `bin.ts` `renderPdf` (lines 221-262): copy all chunks,
synthesize the outline from the TOC, combine destinations, and augment the
catalog with `Outlines`/`PageMode` and `Dests`. -/
def assemble_bin (chunks : List PdfChunk) (toc : List Outline) : MergedDoc :=
  let (pages, page_ids, tables, ctr) := copyAllChunks chunks
  let (outlineRes, ctr) := writeOutline page_ids toc ctr
  let hasDests := !tables.isEmpty
  { pages := pages, page_ids := page_ids,
    dest_entries := if hasDests then some (combineDests tables) else none,
    dests_obj := if hasDests then some ctr else none,
    outline := outlineRes.map (fun p => p.1),
    outline_objs := (outlineRes.map (fun p => p.2)).getD [],
    catalog_outlines := outlineRes.map (fun p => p.1.id),
    catalog_page_mode_use_outlines := outlineRes.isSome,
    catalog_dests := if hasDests then some ctr else none }

/-- The result of a `renderPdf` call: either the single input stream returned
as-is, or an assembled (fully re-serialized) merged document. -/
inductive RenderResult where
  | unchanged (bytes : List Nat)
  | assembled (doc : MergedDoc)
deriving DecidableEq, Repr

/-- The output dispatch of the library `renderPdf` (`index.ts` lines 117-156):
zero chunks throw, exactly one chunk is returned unchanged, more chunks are
merged.  The `match` mirrors the `length === 0` / `length === 1` if-chain. -/
def renderPdf_index (chunks : List PdfChunk) : Except String RenderResult :=
  match chunks with
  | [] => .error "nothing to print to pdf"
  | [c] => .ok (.unchanged c.bytes)
  | cs => .ok (.assembled (assemble_index cs))

/-- The output dispatch of the CLI `renderPdf` (`bin.ts` lines 217-262): zero
chunks throw; ANY non-zero number of chunks — including exactly one — goes
through the full merge path with outline synthesis. -/
def renderPdf_bin (chunks : List PdfChunk) (toc_marks : List TocMark) :
    Except String RenderResult :=
  match chunks with
  | [] => .error "nothing to print to pdf"
  | cs => .ok (.assembled (assemble_bin cs (buildToc toc_marks)))

/-- Modelled from the spec: the destination-merge behavior the spec claims
("first occurrence of a given name wins on conflict; later duplicates are
dropped, not overwritten").  This definition follows the spec's words, for
comparison with `combineDests`, which is what the code does. -/
def firstWinsMerge (tables : List (List (String × String))) :
    List (String × String) :=
  tables.foldl
    (fun acc tbl =>
      tbl.foldl
        (fun acc e => if acc.any (fun p => p.1 = e.1) then acc else acc ++ [e])
        acc)
    []

/-- Number of entries carrying a given destination name. -/
def countKey (entries : List (String × String)) (name : String) : Nat :=
  (entries.filter (fun e => e.1 = name)).length

end PdfAssembly

/-- Decidable equality on `Except` results (used to evaluate concrete runs). -/
instance instDecEqExcept {ε α : Type} [DecidableEq ε] [DecidableEq α] :
    DecidableEq (Except ε α) := fun a b =>
  match a, b with
  | .ok x, .ok y =>
    if h : x = y then isTrue (h ▸ rfl) else isFalse (fun hc => h (Except.ok.inj hc))
  | .error x, .error y =>
    if h : x = y then isTrue (h ▸ rfl) else isFalse (fun hc => h (Except.error.inj hc))
  | .ok _, .error _ => isFalse (fun hc => Except.noConfusion hc)
  | .error _, .ok _ => isFalse (fun hc => Except.noConfusion hc)

namespace Fixtures

open PaginateDom PdfAssembly

/-- A one-page stream with no destinations. -/
def c1chunk : PdfChunk := ⟨[1, 2, 3], [⟨10, false⟩], none⟩

/-- One heading mark, so that the CLI pipeline synthesizes an outline. -/
def c1marks : List TocMark := [⟨"T", 0, "H2"⟩]

/-- Two streams defining the same destination name with different targets. -/
def c2chunkA : PdfChunk := ⟨[], [], some [("X", "t1")]⟩

/-- Second stream with the colliding name. -/
def c2chunkB : PdfChunk := ⟨[], [], some [("X", "t2")]⟩

/-- The outline entry list of the claim: levels 1, 2, 1. -/
def c7marks : List TocMark := [⟨"A", 0, "H1"⟩, ⟨"B", 0, "H2"⟩, ⟨"C", 0, "H1"⟩]

/-- A container holding one tall paragraph that spans two pages. -/
def okTree : List DNode :=
  [.elem ⟨1, "P", 5, 150, 0, 0, none⟩ [.text 2 "hello"]]

/-- The single top-level cut node of `okTree`. -/
def okCut : CutNode :=
  ⟨"P", ⟨[], .elem ⟨1, "P", 5, 150, 0, 0, none⟩ [.text 2 "hello"], []⟩, 5, 150⟩

/-- The state of the `okTree` pass after the initial scan (content height
100, top margin 0, container top 0, hence expected bottom 100). -/
def okState : PassSt :=
  { scan := { initScanSt with last_cutable_tag_name := "P", cut_elements := [1] },
    expected_page_bottom := 100, first := none, cuts := [], stack := [okCut] }

/-- The successful result of the `okTree` pass. -/
def okOut : PassSt :=
  (paginate_pass defaultConfig ⟨100, 100⟩ 100 0 100 okState).toOption.getD okState

/-- The successful result of the `okTree` container run. -/
def okContainerOut : PassSt :=
  (paginate_container defaultConfig ⟨100, 100⟩ 100 0 0 okTree initScanSt
      100).toOption.getD
    { scan := initScanSt, expected_page_bottom := 0, first := none,
      cuts := [], stack := [] }

/-- The committed cut record of the `okTree` pass. -/
def okRec : CutRecord :=
  { page := 2, header := none, footer := none, top := 0,
    parents_top_height := 0, expected_page_bottom := 100,
    next_expected_page_bottom := 105, closest_tag := "P" }

/-- A paragraph starting exactly at the container top: its cut leaves the
expected boundary where it was, which must trip the loop detector. -/
def loopCut : CutNode :=
  ⟨"P", ⟨[], .elem ⟨1, "P", 0, 150, 0, 0, none⟩ [.text 2 "hello"], []⟩, 0, 150⟩

/-- The pass state about to commit `loopCut` against boundary 100. -/
def loopState : PassSt :=
  { scan := { initScanSt with last_cutable_tag_name := "P", cut_elements := [1] },
    expected_page_bottom := 100, first := none, cuts := [], stack := [loopCut] }

/-- A container of a paragraph followed by a `DIV` holding a nested
`<header page="1">` and a second tall paragraph: the nested header resets
the page counter between the first and second committed cut. -/
def resetTree : List DNode :=
  [.elem ⟨1, "P", 10, 200, 0, 0, none⟩ [.text 2 "hello"],
   .elem ⟨3, "DIV", 105, 500, 0, 0, none⟩
     [.elem ⟨4, "HEADER", 105, 105, 0, 0, some 1⟩ [],
      .elem ⟨5, "P", 107, 450, 0, 0, none⟩ [.text 6 "world"]]]

/-- The first paragraph of `resetTree` as a node value. -/
def rP1 : DNode := .elem ⟨1, "P", 10, 200, 0, 0, none⟩ [.text 2 "hello"]

/-- The nested `<header page="1">` of `resetTree`. -/
def rHeader : DNode := .elem ⟨4, "HEADER", 105, 105, 0, 0, some 1⟩ []

/-- The second tall paragraph of `resetTree`. -/
def rP2 : DNode := .elem ⟨5, "P", 107, 450, 0, 0, none⟩ [.text 6 "world"]

/-- The `DIV` of `resetTree` holding the header and the second paragraph. -/
def rDiv : DNode := .elem ⟨3, "DIV", 105, 500, 0, 0, none⟩ [rHeader, rP2]

/-- The top-level cut at the first paragraph of `resetTree`. -/
def cutP1 : CutNode := ⟨"P", ⟨[], rP1, [rDiv]⟩, 10, 200⟩

/-- The nested cut at the second paragraph of `resetTree`. -/
def cutP2 : CutNode := ⟨"P", ⟨[rHeader], rP2, []⟩, 107, 450⟩

/-- The top-level cut at the `DIV` of `resetTree`. -/
def cutDIV : CutNode := ⟨"DIV", ⟨[rP1], rDiv, []⟩, 105, 500⟩

/-- The scan state after the initial scan of `resetTree`. -/
def rScan0 : ScanSt :=
  { initScanSt with last_cutable_tag_name := "P", cut_elements := [1] }

/-- The pass state of `resetTree` entering the first commit iteration
(content height 100, top margin 0, container top 0). -/
def rSt1 : PassSt :=
  { scan := rScan0, expected_page_bottom := 100,
    first := none, cuts := [], stack := [cutP1] }

/-- The first committed cut record of the `resetTree` pass: page 2, next
boundary 110. -/
def rRec1 : CutRecord :=
  { page := 2, header := none, footer := none, top := 0,
    parents_top_height := 0, expected_page_bottom := 100,
    next_expected_page_bottom := 110, closest_tag := "P" }

/-- The scan state after the rescan that runs into the nested
`<header page="1">`: the page counter is reset to 0 and the ghost reset
counter records it. -/
def rScan1 : ScanSt :=
  { header := some 4, footer := none, page := 0, num_pages := 0,
    last_cutable_tag_name := "P", cut_elements := [5, 3, 1], page_resets := 1 }

/-- The pass state of `resetTree` entering the second commit iteration. -/
def rSt2 : PassSt :=
  { scan := rScan1, expected_page_bottom := 110,
    first := some ⟨1, none, none⟩, cuts := [rRec1], stack := [cutP2, cutDIV] }

/-- The second committed cut record of the `resetTree` pass: page 1 — lower
than the previous page 2, because of the header reset. -/
def rRec2 : CutRecord :=
  { page := 1, header := some 4, footer := none, top := 0,
    parents_top_height := 0, expected_page_bottom := 110,
    next_expected_page_bottom := 207, closest_tag := "P" }

/-- The final pass state of the `resetTree` run (page sequence `[1, 2, 1]`). -/
def rSt3 : PassSt :=
  { scan := { header := some 4, footer := none, page := 1, num_pages := 1,
              last_cutable_tag_name := "DIV", cut_elements := [5, 3, 1],
              page_resets := 1 },
    expected_page_bottom := 207,
    first := some ⟨1, none, none⟩, cuts := [rRec1, rRec2], stack := [] }

/-- A horizontal rule whose bottom is far above the boundary. -/
def c9hr : ElemData := ⟨7, "HR", 50, 51, 0, 0, none⟩

/-- A page-header element preceding `c9hr`. -/
def c9header : ElemData := ⟨8, "HEADER", 0, 0, 0, 0, none⟩

/-- A tall paragraph after `c9hr`, which does overflow the boundary. -/
def c9tallP : ElemData := ⟨9, "P", 60, 2000, 0, 0, none⟩

/-- A scan state whose previously scanned cutable tag is a paragraph. -/
def c9state : ScanSt := { initScanSt with last_cutable_tag_name := "P" }

/-- The cut the scan of `[c9header, c9hr, c9tallP]` produces: the tall
paragraph, not the rule. -/
def c9cut : CutNode :=
  ⟨"P", ⟨[.elem c9hr [], .elem c9header []], .elem c9tallP [], []⟩, 60, 2000⟩

/-- A footer template whose markup uses both placeholders. -/
def c8dom : TDom :=
  ⟨[⟨"FOOTER", [("class", "foot")], "X: \x7b\x7b page \x7d\x7d / \x7b\x7b num_pages \x7d\x7d"⟩]⟩

end Fixtures

/-! ## Theorems settling the claims -/

section Claims

open PaginateDom PdfAssembly Fixtures

/-- C6: resolving the paper token `"A4"` yields width 210mm and height 297mm;
the margin token `"1cm 2cm 3cm 25mm"` resolves to top 1cm, right 2cm, bottom
3cm, left 25mm; the bare margin token `"2cm"` resolves to 2cm on all four
sides. -/
theorem resolver_presets_and_margins :
    parse_paper (some "A4") = .ok (some (.preset "A4")) ∧
    resolve_paper_size (.preset "A4") = some ⟨"210mm", "297mm"⟩ ∧
    parse_paper_margin (some "1cm 2cm 3cm 25mm") =
      .ok (some ⟨"1cm", "2cm", "3cm", "25mm"⟩) ∧
    parse_paper_margin (some "2cm") = .ok (some ⟨"2cm", "2cm", "2cm", "2cm"⟩) :=
  ⟨rfl, rfl, rfl, rfl⟩

/-- C10: the `letter` and `legal` presets have width `"8.5in"`; with
landscape orientation the page height is parsed from that width by the
integer-only length grammar, so the metric prelude of `paginate` throws
`invalid length: 8.5in` — while the same presets in portrait orientation
succeed. -/
theorem letter_legal_landscape_invalid_length :
    papers_lookup "letter" = some ⟨"8.5in", "11in"⟩ ∧
    papers_lookup "legal" = some ⟨"8.5in", "14in"⟩ ∧
    container_metrics ⟨"8.5in", "11in"⟩ default_margin "landscape" =
      .error "invalid length: 8.5in" ∧
    container_metrics ⟨"8.5in", "14in"⟩ default_margin "landscape" =
      .error "invalid length: 8.5in" ∧
    (container_metrics ⟨"8.5in", "11in"⟩ default_margin "portrait").isOk = true ∧
    (container_metrics ⟨"8.5in", "14in"⟩ default_margin "portrait").isOk = true :=
  ⟨rfl, rfl, rfl, rfl, rfl, rfl⟩

/-- C7: the outline entry list `[{A,1},{B,2},{C,1}]` yields a tree with `A`
and `C` as top-level siblings (the root's `First`/`Last` point at them) and
`B` as the only child of `A`; the entry titled `A` carries `Next` to the id
of the entry titled `C`, and the entry titled `B` carries `Parent` equal to
the id of the entry titled `A`. -/
theorem outline_tree_links :
    buildToc c7marks =
      [Outline.mk "A" 0 [Outline.mk "B" 0 []], Outline.mk "C" 0 []] ∧
    writeOutline [100] (buildToc c7marks) 1 =
      (some ({ id := 1, count := 2, first := some 2, last := some 3 },
        [⟨4, "B", 2, 100, none, none, none, none, none⟩,
         ⟨2, "A", 1, 100, some 2, some 4, some 4, some 3, none⟩,
         ⟨3, "C", 1, 100, none, none, none, none, some 2⟩]), 5) ∧
    (let objs := ((writeOutline [100] (buildToc c7marks) 1).1.map
        (fun p => p.2)).getD []
     (objs.find? (fun o => o.title = "A")).map (fun o => o.next) =
       some ((objs.find? (fun o => o.title = "C")).map (fun o => o.id)) ∧
     (objs.find? (fun o => o.title = "B")).map (fun o => o.parent) =
       some (((objs.find? (fun o => o.title = "A")).map (fun o => o.id)).getD 0)) :=
  ⟨rfl, rfl, rfl, rfl⟩

/-- C1 (counterexample): the CLI `renderPdf` of `bin.ts` has no single-stream
shortcut — called with exactly one page-stream it still runs the merge path
and synthesizes an outline, so the result is not the input stream returned
unchanged. -/
theorem single_stream_bin_not_unchanged :
    renderPdf_bin [c1chunk] c1marks ≠ .ok (.unchanged c1chunk.bytes) ∧
    renderPdf_bin [c1chunk] c1marks =
      .ok (.assembled (assemble_bin [c1chunk] (buildToc c1marks))) ∧
    (assemble_bin [c1chunk] (buildToc c1marks)).outline.isSome = true :=
  ⟨by decide, rfl, rfl⟩

/-- C1 (amended): the library `renderPdf` (`index.ts`, also part_000) returns
a single input page-stream byte-identical, with no merge, outline synthesis
or destination rewriting applied. -/
theorem renderPdf_index_single_unchanged (c : PdfChunk) :
    renderPdf_index [c] = .ok (.unchanged c.bytes) :=
  rfl

/-- The combined-dests execution is plain concatenation of the tables. -/
theorem combineDests_eq_join (tables : List (List (String × String))) :
    combineDests tables = tables.flatten := by
  suffices h : ∀ acc, List.foldl (fun d tbl => d ++ tbl) acc tables = acc ++ tables.flatten by
    simpa [combineDests] using h []
  induction tables with
  | nil => intro acc; simp
  | cons t ts ih => intro acc; simp [ih]

/-- The collected `combined_dests` tables are the present `dests` tables of
the chunks, in order. -/
theorem copyAllChunksGo_tables (cs : List PdfChunk) :
    ∀ ps ids tabs ctr, (copyAllChunksGo cs ps ids tabs ctr).2.2.1 =
      tabs ++ cs.filterMap (fun c => c.dests) := by
  induction cs with
  | nil => intro ps ids tabs ctr; simp [copyAllChunksGo]
  | cons c cs ih =>
    intro ps ids tabs ctr
    rcases hcp : copyPagesGo c.pages [] [] ctr with ⟨cps, cids, ctr'⟩
    cases hd : c.dests <;>
      simp [copyAllChunksGo, copyPages, hcp, hd, ih]

/-- The destination dictionary of the bin.ts merge: absent when no chunk has
a table, otherwise the concatenation of all present tables. -/
theorem assemble_bin_dest_entries (chunks : List PdfChunk) (toc : List Outline) :
    (assemble_bin chunks toc).dest_entries =
      (if (chunks.filterMap (fun c => c.dests)).isEmpty then none
       else some (combineDests (chunks.filterMap (fun c => c.dests)))) := by
  unfold assemble_bin copyAllChunks
  rcases hc : copyAllChunksGo chunks [] [] [] 1 with ⟨ps, ids, tabs, ctr⟩
  have htabs := copyAllChunksGo_tables chunks [] [] [] 1
  rw [hc] at htabs
  simp only [List.nil_append] at htabs
  subst htabs
  rcases hw : writeOutline ids toc ctr with ⟨res, ctr2⟩
  cases hb : (List.filterMap (fun c => c.dests) chunks).isEmpty <;> simp [hb]

/-- `countKey` distributes over append. -/
theorem countKey_append (a b : List (String × String)) (n : String) :
    countKey (a ++ b) n = countKey a n + countKey b n := by
  simp [countKey, List.filter_append]

/-- `countKey` of a concatenation is the sum of the per-table counts. -/
theorem countKey_join (ts : List (List (String × String))) (n : String) :
    countKey ts.flatten n = (ts.map (fun t => countKey t n)).sum := by
  induction ts with
  | nil => simp [countKey]
  | cons t ts ih => simp [countKey_append, ih]

/-- Summing the counts over the present tables equals summing over all
chunks with absent tables counting zero. -/
theorem countKey_filterMap_sum (chunks : List PdfChunk) (name : String) :
    ((chunks.filterMap (fun c => c.dests)).map (fun t => countKey t name)).sum =
      (chunks.map (fun c => countKey (c.dests.getD []) name)).sum := by
  induction chunks with
  | nil => simp
  | cons c cs ih =>
    cases hd : c.dests with
    | none => simpa [hd, countKey] using ih
    | some t => simpa [hd, countKey] using ih

/-- C2 (amended): the merge writes every stream's destination entries into
the single merged dictionary in stream order; for each name the dictionary
carries as many entries as all streams define together, so a later duplicate
is written alongside the earlier entry — neither dropped nor deduplicated. -/
theorem merged_dests_keep_every_entry (chunks : List PdfChunk)
    (toc : List Outline) (name : String) :
    countKey (((assemble_bin chunks toc).dest_entries).getD []) name =
      (chunks.map (fun c => countKey (c.dests.getD []) name)).sum := by
  rw [assemble_bin_dest_entries]
  by_cases h : (chunks.filterMap (fun c => c.dests)).isEmpty
  · rw [if_pos h]
    have hnil : chunks.filterMap (fun c => c.dests) = [] :=
      List.isEmpty_iff.mp h
    have hall := List.filterMap_eq_nil_iff.mp hnil
    have hz : (chunks.map (fun c => countKey (c.dests.getD []) name)).sum = 0 :=
      List.sum_eq_zero (by
        intro x hx
        obtain ⟨c, hc, rfl⟩ := List.mem_map.mp hx
        rw [hall c hc]
        rfl)
    rw [hz]
    rfl
  · rw [if_neg h]
    simp only [Option.getD_some]
    rw [combineDests_eq_join, countKey_join, countKey_filterMap_sum]

/-- C2 (counterexample): two streams defining the destination name `"X"` —
the merged dictionary as written contains both entries, in stream order; the
later duplicate is written rather than dropped, and the dictionary differs
from the spec's first-writer-wins merge. -/
theorem duplicate_dest_written_not_dropped :
    (assemble_bin [c2chunkA, c2chunkB] []).dest_entries =
      some [("X", "t1"), ("X", "t2")] ∧
    firstWinsMerge [[("X", "t1")], [("X", "t2")]] = [("X", "t1")] ∧
    (assemble_bin [c2chunkA, c2chunkB] []).dest_entries ≠
      some (firstWinsMerge [[("X", "t1")], [("X", "t2")]]) ∧
    countKey [("X", "t1"), ("X", "t2")] "X" = 2 :=
  ⟨rfl, rfl, by decide, rfl⟩

/-- C5: every `write` returns the number of bytes written and advances the
position by exactly that count; the constructor allocates at least the 1 MiB
default capacity; and an overflowing write reallocates to the least multiple
of `min(current capacity, 32 MiB)` that is at least the pending end position,
carrying over only the bytes written so far (followed by the new bytes and
fresh zero fill). -/
theorem buffer_write_spec (st : PDFWStreamForBuffer) (bytes : List Nat) (c : Int) :
    (st.write bytes).2 = bytes.length ∧
    (st.write bytes).1._position = st._position + bytes.length ∧
    MB ≤ (PDFWStreamForBuffer.init c).data.length ∧
    (st.data.length < st._position + bytes.length →
     st._position ≤ st.data.length →
     0 < st.data.length →
     (let g := min st.data.length (32 * MB)
      let cap := (st.write bytes).1.data.length
      g ∣ cap ∧ st._position + bytes.length ≤ cap ∧
      (∀ m, g ∣ m → st._position + bytes.length ≤ m → cap ≤ m) ∧
      (st.write bytes).1.data =
        st.data.take st._position ++ bytes ++
          List.replicate (cap - (st._position + bytes.length)) 0)) := by
  refine ⟨rfl, rfl, ?_, ?_⟩
  · have hmax : (MB : Int) ≤ max (int32_wrap c) (MB : Int) := le_max_right _ _
    have h0 : (0 : Int) ≤ max (int32_wrap c) (MB : Int) :=
      le_trans (by positivity) hmax
    simp only [PDFWStreamForBuffer.init, List.length_replicate]
    exact (Int.le_toNat h0).mpr hmax
  · intro hover hpos hcap
    set pos := st._position with hp
    set blen := bytes.length with hb
    set next := pos + blen with hn
    set g := min st.data.length (32 * MB) with hg
    have hg0 : 0 < g := lt_min hcap (by norm_num [MB])
    set q := (next + g - 1) / g with hq
    have hceil : next ⌈/⌉ g = q := Nat.ceilDiv_eq_add_pred_div next g
    have hif : (st.write bytes).1.data =
        listSetAt (listSetAt (List.replicate (q * g) 0) 0 (st.data.take pos))
          pos bytes := by
      simp only [PDFWStreamForBuffer.write, hn.symm]
      rw [if_pos (by omega)]
    have hqg : next ≤ q * g := by
      calc next ≤ g • (next ⌈/⌉ g) := le_smul_ceilDiv hg0
        _ = q * g := by rw [hceil, smul_eq_mul, Nat.mul_comm]
    have hpre : listSetAt (List.replicate (q * g) 0) 0 (st.data.take pos) =
        st.data.take pos ++ List.replicate (q * g - pos) 0 := by
      have hlen : (st.data.take pos).length = pos := by
        rw [List.length_take]
        omega
      simp [listSetAt, List.drop_replicate, hlen]
    have hposle : pos ≤ q * g := by omega
    have hdata : (st.write bytes).1.data =
        st.data.take pos ++ bytes ++ List.replicate (q * g - next) 0 := by
      rw [hif, hpre]
      have hlen : (st.data.take pos).length = pos := by
        rw [List.length_take]
        omega
      simp only [listSetAt]
      rw [List.take_append_of_le_length (by omega), List.take_of_length_le (by omega)]
      congr 1
      have hpb : pos + bytes.length = (st.data.take pos).length + blen := by omega
      rw [hpb, List.drop_append, List.drop_replicate]
      congr 1
      omega
    have hcaplen : (st.write bytes).1.data.length = q * g := by
      rw [hdata]
      simp [List.length_take]
      omega
    refine ⟨?_, ?_, ?_, ?_⟩
    · rw [hcaplen]; exact dvd_mul_left g q
    · rw [hcaplen]; exact hqg
    · intro m hm hnextm
      rw [hcaplen]
      obtain ⟨k, rfl⟩ := hm
      have hqk : q ≤ k := by
        rw [← hceil]
        exact (ceilDiv_le_iff_le_mul hg0).mpr hnextm
      calc q * g ≤ k * g := Nat.mul_le_mul_right g hqk
        _ = g * k := Nat.mul_comm k g
    · rw [hcaplen, hdata]

/-- C5 witness: a concrete overflowing write on a 3-byte-capacity stream at
position 2 — the write returns 4, the capacity grows to 6 (the least multiple
of 3 at least 6), and the data is the 2 carried bytes followed by the 4 new
ones. -/
theorem buffer_write_spec_witness :
    ((⟨2, [5, 6, 7]⟩ : PDFWStreamForBuffer).write [1, 2, 3, 4]).2 = 4 ∧
    (min ([5, 6, 7] : List Nat).length (32 * MB) ∣
        ((⟨2, [5, 6, 7]⟩ : PDFWStreamForBuffer).write [1, 2, 3, 4]).1.data.length ∧
      2 + ([1, 2, 3, 4] : List Nat).length ≤
        ((⟨2, [5, 6, 7]⟩ : PDFWStreamForBuffer).write [1, 2, 3, 4]).1.data.length ∧
      (∀ m, min ([5, 6, 7] : List Nat).length (32 * MB) ∣ m →
        2 + ([1, 2, 3, 4] : List Nat).length ≤ m →
        ((⟨2, [5, 6, 7]⟩ : PDFWStreamForBuffer).write [1, 2, 3, 4]).1.data.length ≤ m) ∧
      ((⟨2, [5, 6, 7]⟩ : PDFWStreamForBuffer).write [1, 2, 3, 4]).1.data =
        ([5, 6, 7] : List Nat).take 2 ++ [1, 2, 3, 4] ++
          List.replicate
            (((⟨2, [5, 6, 7]⟩ : PDFWStreamForBuffer).write [1, 2, 3, 4]).1.data.length -
              (2 + ([1, 2, 3, 4] : List Nat).length)) 0) :=
  ⟨(buffer_write_spec ⟨2, [5, 6, 7]⟩ [1, 2, 3, 4] 0).1,
   (buffer_write_spec ⟨2, [5, 6, 7]⟩ [1, 2, 3, 4] 0).2.2.2
     (by decide) (by decide) (by decide)⟩

/-- A cut returned by the sibling scan is one of the scanned nodes. -/
theorem next_cut_go_cut_mem (cfg : Config) (bot : ℤ) (lvl : Nat) :
    ∀ (nodes before : List DNode) (chc : Bool) (st : ScanSt) (c : CutNode),
      (next_cut_go cfg bot lvl before nodes chc st).1 = .cut c →
      c.loc.node ∈ nodes := by
  intro nodes
  induction nodes with
  | nil =>
    intro before chc st c h
    simp [next_cut_go] at h
  | cons n rest ih =>
    intro before chc st c h
    cases n with
    | text i s =>
      simp only [next_cut_go] at h
      exact List.mem_cons_of_mem _ (ih _ _ _ _ h)
    | elem d children =>
      simp only [next_cut_go] at h
      by_cases hH : d.tagName = "HEADER"
      · rw [if_pos hH] at h
        exact List.mem_cons_of_mem _ (ih _ _ _ _ h)
      · rw [if_neg hH] at h
        by_cases hF : d.tagName = "FOOTER"
        · rw [if_pos hF] at h
          exact List.mem_cons_of_mem _ (ih _ _ _ _ h)
        · rw [if_neg hF] at h
          by_cases hcb : is_cut_block d.tagName
          · rw [if_pos hcb] at h
            by_cases hcond : (d.bottom > bot ∨
                (lvl = 0 ∧ d.tagName ∈ cfg.force_cut_tag_names ∧
                 st.last_cutable_tag_name ≠ "HEADER")) ∧
                d.id ∉ st.cut_elements
            · rw [if_pos hcond] at h
              simp only [NextCutRes.cut.injEq] at h
              subst h
              exact List.mem_cons_self _ _
            · rw [if_neg hcond] at h
              exact List.mem_cons_of_mem _ (ih _ _ _ _ h)
          · rw [if_neg hcb] at h
            exact List.mem_cons_of_mem _ (ih _ _ _ _ h)

/-- One scan step over a `HEADER` element: record it (and apply the page
reset when a `page` attribute is present), then continue with the siblings. -/
theorem next_cut_go_header_step (cfg : Config) (bot : ℤ) (lvl : Nat)
    (d : ElemData) (ch : List DNode) (before rest : List DNode)
    (chc : Bool) (st : ScanSt) (hH : d.tagName = "HEADER") :
    next_cut_go cfg bot lvl before (.elem d ch :: rest) chc st =
      next_cut_go cfg bot lvl (.elem d ch :: before) rest chc
        (match d.pageAttr with
         | some p =>
           { header := some d.id, footer := st.footer, page := p - 1,
             num_pages := 0, last_cutable_tag_name := "HEADER",
             cut_elements := st.cut_elements,
             page_resets := st.page_resets + 1 }
         | none =>
           { header := some d.id, footer := st.footer, page := st.page,
             num_pages := st.num_pages, last_cutable_tag_name := "HEADER",
             cut_elements := st.cut_elements,
             page_resets := st.page_resets }) := by
  cases hattr : d.pageAttr <;> simp only [next_cut_go, if_pos hH, hattr]

/-- One scan step returning a cutable block as the cut: the block is not a
header or footer, its tag is cutable, and the cut condition holds. -/
theorem next_cut_go_block_cut (cfg : Config) (bot : ℤ) (lvl : Nat)
    (d : ElemData) (ch : List DNode) (before rest : List DNode)
    (chc : Bool) (st : ScanSt)
    (hH : d.tagName ≠ "HEADER") (hF : d.tagName ≠ "FOOTER")
    (hcb : is_cut_block d.tagName)
    (hcond : (d.bottom > bot ∨ (lvl = 0 ∧ d.tagName ∈ cfg.force_cut_tag_names ∧
        st.last_cutable_tag_name ≠ "HEADER")) ∧ d.id ∉ st.cut_elements) :
    (next_cut_go cfg bot lvl before (.elem d ch :: rest) chc st).1 =
      .cut ⟨d.tagName, ⟨before, .elem d ch, rest⟩, d.top, d.bottom⟩ := by
  simp only [next_cut_go]
  rw [if_neg hH, if_neg hF, if_pos hcb, if_pos hcond]

/-- After a scanned `HEADER` (`last_cutable_tag_name = "HEADER"`), an element
whose bottom stays within the boundary is never returned as the cut: any cut
comes from the following siblings. -/
theorem next_cut_go_after_header (cfg : Config) (bot : ℤ) (lvl : Nat)
    (d : ElemData) (dch before rest : List DNode) (chc : Bool) (st : ScanSt)
    (hlast : st.last_cutable_tag_name = "HEADER") (hbot : d.bottom ≤ bot) :
    ∀ c, (next_cut_go cfg bot lvl before (.elem d dch :: rest) chc st).1 = .cut c →
      c.loc.node ∈ rest := by
  intro c h
  simp only [next_cut_go] at h
  by_cases hH : d.tagName = "HEADER"
  · rw [if_pos hH] at h
    exact next_cut_go_cut_mem cfg bot lvl rest _ _ _ c h
  · rw [if_neg hH] at h
    by_cases hF : d.tagName = "FOOTER"
    · rw [if_pos hF] at h
      exact next_cut_go_cut_mem cfg bot lvl rest _ _ _ c h
    · rw [if_neg hF] at h
      by_cases hcb : is_cut_block d.tagName
      · rw [if_pos hcb] at h
        have hcond : ¬ ((d.bottom > bot ∨
            (lvl = 0 ∧ d.tagName ∈ cfg.force_cut_tag_names ∧
             st.last_cutable_tag_name ≠ "HEADER")) ∧
            d.id ∉ st.cut_elements) := by
          rintro ⟨hor, -⟩
          rcases hor with hgt | ⟨-, -, hne⟩
          · exact absurd hbot (not_le.mpr hgt)
          · exact hne hlast
        rw [if_neg hcond] at h
        exact next_cut_go_cut_mem cfg bot lvl rest _ _ _ c h
      · rw [if_neg hcb] at h
        exact next_cut_go_cut_mem cfg bot lvl rest _ _ _ c h

/-- C9: at the top level (`lvl = 0`), a node whose tag is in the force-cut
set is returned as the page cut as soon as the scan reaches it — regardless
of whether its bottom exceeds the expected page boundary — provided the
previously scanned cutable tag was not a page header and the node was not
already cut; if instead the node immediately follows a page-header element
and its bottom does not exceed the boundary, no cut is produced at that
node (any returned cut is a different node, from the following siblings). -/
theorem force_cut_at_top_level (cfg : Config) (bot : ℤ) :
    (∀ (d : ElemData) (children before rest : List DNode) (st : ScanSt),
       d.tagName ∈ cut_tag_names →
       d.tagName ∈ cfg.force_cut_tag_names →
       st.last_cutable_tag_name ≠ "HEADER" →
       d.id ∉ st.cut_elements →
       (next_cut cfg bot 0 before (.elem d children :: rest) st).1 =
         .cut ⟨d.tagName, ⟨before, .elem d children, rest⟩, d.top, d.bottom⟩) ∧
    (∀ (hd : ElemData) (hch : List DNode) (d : ElemData)
       (dch before rest : List DNode) (st : ScanSt) (c : CutNode),
       hd.tagName = "HEADER" →
       d.bottom ≤ bot →
       d.id ∉ rest.map DNode.nodeId →
       (next_cut cfg bot 0 before
         (.elem hd hch :: .elem d dch :: rest) st).1 = .cut c →
       c.loc.node.nodeId ≠ d.id) := by
  constructor
  · intro d children before rest st hmem hforce hlast hnotin
    have hH : d.tagName ≠ "HEADER" := by
      intro he
      rw [he] at hmem
      simp [cut_tag_names] at hmem
    have hF : d.tagName ≠ "FOOTER" := by
      intro he
      rw [he] at hmem
      simp [cut_tag_names] at hmem
    have hcb : is_cut_block d.tagName := by
      simpa [is_cut_block] using hmem
    exact next_cut_go_block_cut cfg bot 0 d children before rest false st
      hH hF hcb ⟨Or.inr ⟨rfl, hforce, hlast⟩, hnotin⟩
  · intro hd hch d dch before rest st c hhd hbot hnotin h
    simp only [next_cut] at h
    rw [next_cut_go_header_step cfg bot 0 hd hch before
      (.elem d dch :: rest) false st hhd] at h
    have hmem : c.loc.node ∈ rest := by
      cases hattr : hd.pageAttr <;>
        · rw [hattr] at h
          exact next_cut_go_after_header cfg bot 0 d dch _ rest _ _ rfl hbot c h
    intro heq
    exact hnotin (heq ▸ List.mem_map_of_mem DNode.nodeId hmem)

/-- C9 witness: with the default configuration, a rule (`HR`, in the default
force-cut set) whose bottom (51) is far above the boundary (1000) is returned
as the cut when the scan reaches it directly after a paragraph — and when the
same rule immediately follows a page header, the scan instead cuts at the
following overflowing paragraph, a different node. -/
theorem force_cut_at_top_level_witness :
    (next_cut defaultConfig 1000 0 [] [.elem c9hr []] c9state).1 =
      .cut ⟨"HR", ⟨[], .elem c9hr [], []⟩, 50, 51⟩ ∧
    (next_cut defaultConfig 1000 0 []
        [.elem c9header [], .elem c9hr [], .elem c9tallP []] c9state).1 =
      .cut c9cut ∧
    c9cut.loc.node.nodeId ≠ c9hr.id :=
  ⟨(force_cut_at_top_level defaultConfig 1000).1 c9hr [] [] [] c9state
     (by decide) (by decide) (by decide) (by decide),
   rfl,
   (force_cut_at_top_level defaultConfig 1000).2 c9header [] c9hr []
     [] [.elem c9tallP []] c9state c9cut rfl (by decide)
     (by decide) rfl⟩


/-! ### The pagination pass: step lemmas, reset-monotonicity and the
page-number chain (claims C3 and C4) -/

/-- An empty stack ends the pass successfully with the state unchanged
(lines 590, 678). -/
theorem paginate_pass_stack_nil (cfg : Config) (pf : PassFuel) (ch top : ℤ)
    (fuel : Nat) (st : PassSt) (hstack : st.stack = []) :
    paginate_pass cfg pf ch top (fuel + 1) st = .ok st := by
  simp only [paginate_pass, hstack]

/-- One committed loop iteration: when the refined stack is `closest :: rest`
and the boundary advances, the pass continues on `pass_step_state`. -/
theorem paginate_pass_step (cfg : Config) (pf : PassFuel) (ch top : ℤ)
    (fuel : Nat) (st : PassSt) (s0 closest : CutNode) (srest rest : List CutNode)
    (hstack : st.stack = s0 :: srest)
    (hrefine : refine_stack cfg st.expected_page_bottom pf.refine_fuel (s0 :: srest) =
      closest :: rest)
    (hprog : ¬ (commit_record cfg ch top st closest rest).next_expected_page_bottom ≤
      st.expected_page_bottom) :
    paginate_pass cfg pf ch top (fuel + 1) st =
      paginate_pass cfg pf ch top fuel (pass_step_state cfg pf ch top st closest rest) := by
  simp only [paginate_pass, hstack, hrefine]
  rw [if_neg hprog]
  rfl

/-- A refinement that empties the stack exhausts the refine fuel and aborts
the pass. -/
theorem paginate_pass_refine_nil (cfg : Config) (pf : PassFuel) (ch top : ℤ)
    (fuel : Nat) (st : PassSt) (s0 : CutNode) (srest : List CutNode)
    (hstack : st.stack = s0 :: srest)
    (hrefine : refine_stack cfg st.expected_page_bottom pf.refine_fuel (s0 :: srest) = []) :
    paginate_pass cfg pf ch top (fuel + 1) st = .error "out of fuel" := by
  simp only [paginate_pass, hstack, hrefine]

/-- A committed cut whose next boundary fails to advance raises the
`infinite loop detected` error (lines 670-675). -/
theorem paginate_pass_loop_error (cfg : Config) (pf : PassFuel) (ch top : ℤ)
    (fuel : Nat) (st : PassSt) (s0 closest : CutNode) (srest rest : List CutNode)
    (hstack : st.stack = s0 :: srest)
    (hrefine : refine_stack cfg st.expected_page_bottom pf.refine_fuel (s0 :: srest) =
      closest :: rest)
    (hle : (commit_record cfg ch top st closest rest).next_expected_page_bottom ≤
      st.expected_page_bottom) :
    paginate_pass cfg pf ch top (fuel + 1) st = .error "infinite loop detected" := by
  simp only [paginate_pass, hstack, hrefine]
  rw [if_pos hle]

/-- Unfolding `paginate_container` through its initial scan. -/
theorem paginate_container_eq (cfg : Config) (pf : PassFuel) (ch mt ct : ℤ)
    (children : List DNode) (sc : ScanSt) (fuel : Nat)
    (stack : List CutNode) (scan : ScanSt)
    (hscan : next_cut_stack cfg (ct + ch + mt) pf.scan_fuel
      (firstElementChildLoc children) [] sc = (stack, scan)) :
    paginate_container cfg pf ch mt ct children sc fuel =
      paginate_pass cfg pf ch ct fuel
        { scan := scan, expected_page_bottom := ct + ch + mt,
          first := none, cuts := [], stack := stack } := by
  simp only [paginate_container, hscan]

/-- Reflexivity of the ghost reset ordering. -/
theorem resetsOrd_refl (st : ScanSt) : resetsOrd st st :=
  ⟨Nat.le_refl _, fun _ => rfl⟩

/-- Transitivity of the ghost reset ordering. -/
theorem resetsOrd_trans {a b c : ScanSt} (h1 : resetsOrd a b) (h2 : resetsOrd b c) :
    resetsOrd a c := by
  refine ⟨Nat.le_trans h1.1 h2.1, fun h => ?_⟩
  have hb : b.page_resets = a.page_resets := by
    have := h1.1; have := h2.1; omega
  rw [h2.2 (by omega), h1.2 hb]

/-- The sibling scan moves the page counter only when it bumps the ghost
reset counter: the `<header page>` reset is the only write to `page`. -/
theorem next_cut_go_resetsOrd (cfg : Config) (bot : ℤ) (lvl : Nat) :
    ∀ (nodes before : List DNode) (chc : Bool) (st : ScanSt),
      resetsOrd st (next_cut_go cfg bot lvl before nodes chc st).2
  | [], _, _, st => by
      simp only [next_cut_go]; exact resetsOrd_refl st
  | .text i s :: rest, before, chc, st => by
      simp only [next_cut_go]
      exact next_cut_go_resetsOrd cfg bot lvl rest _ chc st
  | .elem d cs :: rest, before, chc, st => by
      by_cases hH : d.tagName = "HEADER"
      · cases hattr : d.pageAttr with
        | none =>
          simp only [next_cut_go, if_pos hH, hattr]
          refine resetsOrd_trans ?_ (next_cut_go_resetsOrd cfg bot lvl rest _ chc _)
          exact ⟨Nat.le_refl _, fun _ => rfl⟩
        | some p =>
          simp only [next_cut_go, if_pos hH, hattr]
          refine resetsOrd_trans ?_ (next_cut_go_resetsOrd cfg bot lvl rest _ chc _)
          exact ⟨Nat.le_succ _,
            fun h => absurd (h : st.page_resets + 1 = st.page_resets) (Nat.succ_ne_self _)⟩
      · by_cases hF : d.tagName = "FOOTER"
        · simp only [next_cut_go, if_neg hH, if_pos hF]
          refine resetsOrd_trans ?_ (next_cut_go_resetsOrd cfg bot lvl rest _ chc _)
          exact ⟨Nat.le_refl _, fun _ => rfl⟩
        · by_cases hC : is_cut_block d.tagName
          · simp only [next_cut_go, if_neg hH, if_neg hF, if_pos hC]
            split
            · exact ⟨Nat.le_refl _, fun _ => rfl⟩
            · refine resetsOrd_trans ?_ (next_cut_go_resetsOrd cfg bot lvl rest _ true _)
              exact ⟨Nat.le_refl _, fun _ => rfl⟩
          · simp only [next_cut_go, if_neg hH, if_neg hF, if_neg hC]
            exact next_cut_go_resetsOrd cfg bot lvl rest _ chc st

/-- Specialization of the scan ordering to `next_cut`. -/
theorem next_cut_resetsOrd (cfg : Config) (bot : ℤ) (lvl : Nat)
    (before nodes : List DNode) (st : ScanSt) :
    resetsOrd st (next_cut cfg bot lvl before nodes st).2 :=
  next_cut_go_resetsOrd cfg bot lvl nodes before false st

/-- The whole stack scan preserves the ghost reset ordering. -/
theorem next_cut_stack_resetsOrd (cfg : Config) (bot : ℤ) :
    ∀ (fuel : Nat) (l : Option Loc) (stack : List CutNode) (st : ScanSt),
      resetsOrd st (next_cut_stack cfg bot fuel l stack st).2
  | 0, _, _, st => resetsOrd_refl st
  | _ + 1, none, _, st => resetsOrd_refl st
  | fuel + 1, some l, stack, st => by
      have h0 := next_cut_resetsOrd cfg bot stack.length l.before (l.node :: l.after) st
      rcases h : next_cut cfg bot stack.length l.before (l.node :: l.after) st
        with ⟨res, st'⟩
      rw [h] at h0
      cases res with
      | flag b =>
        cases b with
        | false => simp only [next_cut_stack, h]; exact h0
        | true =>
          simp only [next_cut_stack, h]
          cases hp : popToNextSibling stack with
          | none => exact h0
          | some pr =>
            obtain ⟨stack2, l2⟩ := pr
            exact resetsOrd_trans h0
              (next_cut_stack_resetsOrd cfg bot fuel (some l2) stack2 st')
      | cut c =>
        simp only [next_cut_stack, h]
        split
        · exact resetsOrd_trans h0
            (next_cut_stack_resetsOrd cfg bot fuel (firstChildLoc? c.loc.node)
              (c :: stack) st')
        · exact resetsOrd_trans h0
            (next_cut_stack_resetsOrd cfg bot fuel none (c :: stack) st')

/-- Field characterization of `pass_step_state`: the new boundary, cut list
and `first` record, and the reset ordering between the page-assigned scan
state and the rescanned one. -/
theorem pass_step_state_fields (cfg : Config) (pf : PassFuel) (ch top : ℤ)
    (st : PassSt) (closest : CutNode) (rest : List CutNode) :
    (pass_step_state cfg pf ch top st closest rest).expected_page_bottom =
      (commit_record cfg ch top st closest rest).next_expected_page_bottom ∧
    (pass_step_state cfg pf ch top st closest rest).cuts =
      st.cuts ++ [commit_record cfg ch top st closest rest] ∧
    (pass_step_state cfg pf ch top st closest rest).first =
      (if st.cuts.isEmpty then
        some ⟨st.scan.page + 1, st.scan.header, st.scan.footer⟩ else st.first) ∧
    resetsOrd
      { st.scan with
          page := (commit_record cfg ch top st closest rest).page,
          num_pages := st.scan.num_pages + (if st.cuts.isEmpty then 2 else 1) }
      (pass_step_state cfg pf ch top st closest rest).scan := by
  rcases hns : next_cut_stack cfg
      (commit_record cfg ch top st closest rest).next_expected_page_bottom pf.scan_fuel
      (some ((closest :: rest).getLast (List.cons_ne_nil _ _)).loc) []
      { st.scan with
          page := (commit_record cfg ch top st closest rest).page,
          num_pages := st.scan.num_pages + (if st.cuts.isEmpty then 2 else 1) }
    with ⟨stack2, scan2⟩
  have hm := next_cut_stack_resetsOrd cfg
      (commit_record cfg ch top st closest rest).next_expected_page_bottom pf.scan_fuel
      (some ((closest :: rest).getLast (List.cons_ne_nil _ _)).loc) []
      { st.scan with
          page := (commit_record cfg ch top st closest rest).page,
          num_pages := st.scan.num_pages + (if st.cuts.isEmpty then 2 else 1) }
  rw [hns] at hm
  simp only [pass_step_state, hns]
  exact ⟨trivial, trivial, trivial, hm⟩

/-- The ghost reset counter is monotone over a whole successful pass. -/
theorem paginate_pass_resets_mono (cfg : Config) (pf : PassFuel) (ch top : ℤ) :
    ∀ (fuel : Nat) (st out : PassSt),
      paginate_pass cfg pf ch top fuel st = .ok out →
      st.scan.page_resets ≤ out.scan.page_resets
  | 0, st, out, h => absurd h (by simp [paginate_pass])
  | fuel + 1, st, out, h => by
      cases hstack : st.stack with
      | nil =>
        rw [paginate_pass_stack_nil cfg pf ch top fuel st hstack] at h
        rw [← Except.ok.inj h]
      | cons s0 srest =>
        cases hr : refine_stack cfg st.expected_page_bottom pf.refine_fuel (s0 :: srest) with
        | nil =>
          rw [paginate_pass_refine_nil cfg pf ch top fuel st s0 srest hstack hr] at h
          exact absurd h (by simp)
        | cons closest rest =>
          by_cases hle : (commit_record cfg ch top st closest rest).next_expected_page_bottom ≤
              st.expected_page_bottom
          · rw [paginate_pass_loop_error cfg pf ch top fuel st s0 closest srest rest
              hstack hr hle] at h
            exact absurd h (by simp)
          · rw [paginate_pass_step cfg pf ch top fuel st s0 closest srest rest
              hstack hr hle] at h
            have ih := paginate_pass_resets_mono cfg pf ch top fuel _ out h
            have h1 : st.scan.page_resets ≤
                (pass_step_state cfg pf ch top st closest rest).scan.page_resets :=
              (pass_step_state_fields cfg pf ch top st closest rest).2.2.2.1
            exact Nat.le_trans h1 ih

/-- A cut record emitted by a successful pass either arrived in the input
accumulator or advances the boundary strictly (the failing case raises the
loop error instead of committing). -/
theorem paginate_pass_cuts_progress (cfg : Config) (pf : PassFuel) (ch top : ℤ) :
    ∀ (fuel : Nat) (st out : PassSt),
      paginate_pass cfg pf ch top fuel st = .ok out →
      ∀ r ∈ out.cuts, r ∈ st.cuts ∨
        r.expected_page_bottom < r.next_expected_page_bottom
  | 0, st, out, h => absurd h (by simp [paginate_pass])
  | fuel + 1, st, out, h => by
      cases hstack : st.stack with
      | nil =>
        rw [paginate_pass_stack_nil cfg pf ch top fuel st hstack] at h
        rw [← Except.ok.inj h]
        exact fun r hr => Or.inl hr
      | cons s0 srest =>
        cases hr : refine_stack cfg st.expected_page_bottom pf.refine_fuel (s0 :: srest) with
        | nil =>
          rw [paginate_pass_refine_nil cfg pf ch top fuel st s0 srest hstack hr] at h
          exact absurd h (by simp)
        | cons closest rest =>
          by_cases hle : (commit_record cfg ch top st closest rest).next_expected_page_bottom ≤
              st.expected_page_bottom
          · rw [paginate_pass_loop_error cfg pf ch top fuel st s0 closest srest rest
              hstack hr hle] at h
            exact absurd h (by simp)
          · rw [paginate_pass_step cfg pf ch top fuel st s0 closest srest rest
              hstack hr hle] at h
            intro r hrout
            rcases paginate_pass_cuts_progress cfg pf ch top fuel _ out h r hrout with
              hmem | hlt
            · rw [(pass_step_state_fields cfg pf ch top st closest rest).2.1] at hmem
              rcases List.mem_append.mp hmem with hmem' | hmem'
              · exact Or.inl hmem'
              · right
                rw [List.mem_singleton.mp hmem']
                have hex : (commit_record cfg ch top st closest rest).expected_page_bottom =
                    st.expected_page_bottom := rfl
                rw [hex]
                omega
            · exact Or.inr hlt

/-- Invariant of the pass: starting from a fresh accumulator, or from one
whose page list already climbs by exactly one and ends at the scan page, a
reset-free successful pass ends in a state whose page list climbs by exactly
one and ends at the scan page. -/
theorem paginate_pass_chain (cfg : Config) (pf : PassFuel) (ch top : ℤ) :
    ∀ (fuel : Nat) (st out : PassSt),
      paginate_pass cfg pf ch top fuel st = .ok out →
      out.scan.page_resets = st.scan.page_resets →
      ((st.cuts = [] ∧ st.first = none) ∨
        (st.first.isSome ∧ List.Chain' (fun a b => b = a + 1) (pagesOf st) ∧
          (pagesOf st).getLast? = some st.scan.page)) →
      ((out.cuts = [] ∧ out.first = none) ∨
        (out.first.isSome ∧ List.Chain' (fun a b => b = a + 1) (pagesOf out) ∧
          (pagesOf out).getLast? = some out.scan.page))
  | 0, st, out, h, _, _ => absurd h (by simp [paginate_pass])
  | fuel + 1, st, out, h, hres, hinv => by
      cases hstack : st.stack with
      | nil =>
        rw [paginate_pass_stack_nil cfg pf ch top fuel st hstack] at h
        rw [← Except.ok.inj h]
        exact hinv
      | cons s0 srest =>
        cases hr : refine_stack cfg st.expected_page_bottom pf.refine_fuel (s0 :: srest) with
        | nil =>
          rw [paginate_pass_refine_nil cfg pf ch top fuel st s0 srest hstack hr] at h
          exact absurd h (by simp)
        | cons closest rest =>
          by_cases hle : (commit_record cfg ch top st closest rest).next_expected_page_bottom ≤
              st.expected_page_bottom
          · rw [paginate_pass_loop_error cfg pf ch top fuel st s0 closest srest rest
              hstack hr hle] at h
            exact absurd h (by simp)
          · rw [paginate_pass_step cfg pf ch top fuel st s0 closest srest rest
              hstack hr hle] at h
            have hf := pass_step_state_fields cfg pf ch top st closest rest
            have hmono2 := paginate_pass_resets_mono cfg pf ch top fuel _ out h
            have h1 : st.scan.page_resets ≤
                (pass_step_state cfg pf ch top st closest rest).scan.page_resets :=
              hf.2.2.2.1
            have hstep_resets :
                (pass_step_state cfg pf ch top st closest rest).scan.page_resets =
                  st.scan.page_resets := by omega
            have hpage : (pass_step_state cfg pf ch top st closest rest).scan.page =
                (commit_record cfg ch top st closest rest).page :=
              hf.2.2.2.2 hstep_resets
            have hres' : out.scan.page_resets =
                (pass_step_state cfg pf ch top st closest rest).scan.page_resets := by
              omega
            refine paginate_pass_chain cfg pf ch top fuel _ out h hres' ?_
            right
            by_cases hc : st.cuts = []
            · have hempty : st.cuts.isEmpty = true := by rw [hc]; rfl
              have hpg : (commit_record cfg ch top st closest rest).page =
                  st.scan.page + 2 := by
                show (if st.cuts.isEmpty then st.scan.page + 1 else st.scan.page) + 1 =
                  st.scan.page + 2
                rw [hempty]
                simp only [if_true]
                omega
              have hfirst' : (pass_step_state cfg pf ch top st closest rest).first =
                  some ⟨st.scan.page + 1, st.scan.header, st.scan.footer⟩ := by
                rw [hf.2.2.1]
                simp [hempty]
              have hpages : pagesOf (pass_step_state cfg pf ch top st closest rest) =
                  [st.scan.page + 1, (commit_record cfg ch top st closest rest).page] := by
                simp only [pagesOf, hf.2.1, hfirst', hc, List.nil_append,
                  List.map_cons, List.map_nil]
              refine ⟨by rw [hfirst']; rfl, ?_, ?_⟩
              · rw [hpages]
                simp only [List.chain'_cons, List.chain'_singleton, and_true]
                rw [hpg]
                omega
              · rw [hpages, hpage, hpg]
                simp
            · rcases hinv with ⟨hc', _⟩ | ⟨hsome, hch, hlast⟩
              · exact absurd hc' hc
              · have hempty : st.cuts.isEmpty = false := by
                  cases hcuts' : st.cuts with
                  | nil => exact absurd hcuts' hc
                  | cons a as => rfl
                obtain ⟨f, hfst⟩ := Option.isSome_iff_exists.mp hsome
                have hpg : (commit_record cfg ch top st closest rest).page =
                    st.scan.page + 1 := by
                  show (if st.cuts.isEmpty then st.scan.page + 1 else st.scan.page) + 1 =
                    st.scan.page + 1
                  rw [hempty]
                  simp
                have hfirst' : (pass_step_state cfg pf ch top st closest rest).first =
                    some f := by
                  rw [hf.2.2.1, hempty]
                  simpa using hfst
                have hpages : pagesOf (pass_step_state cfg pf ch top st closest rest) =
                    pagesOf st ++ [(commit_record cfg ch top st closest rest).page] := by
                  simp only [pagesOf, hf.2.1, hfirst', hfst, List.map_append,
                    List.map_cons, List.map_nil, List.cons_append]
                refine ⟨by rw [hfirst']; rfl, ?_, ?_⟩
                · rw [hpages, List.chain'_append]
                  refine ⟨hch, List.chain'_singleton _, ?_⟩
                  intro x hx y hy
                  rw [hlast] at hx
                  simp only [Option.mem_def, Option.some.injEq, List.head?_cons] at hx hy
                  omega
                · rw [hpages, List.getLast?_concat, hpage]

/-- C3: every cut a pass starting from a fresh accumulator commits advances
the expected page boundary strictly; and whenever the committed cut computed
from the refined stack yields a next boundary at or below the current one,
the pass raises the fatal `infinite loop detected` error, returning no page
sequence. -/
theorem paginate_boundary_progress (cfg : Config) (pf : PassFuel) (ch top : ℤ) :
    (∀ (fuel : Nat) (st out : PassSt), st.cuts = [] →
        paginate_pass cfg pf ch top fuel st = .ok out →
        ∀ r ∈ out.cuts, r.expected_page_bottom < r.next_expected_page_bottom) ∧
    (∀ (fuel : Nat) (st : PassSt) (s0 closest : CutNode) (srest rest : List CutNode),
        st.stack = s0 :: srest →
        refine_stack cfg st.expected_page_bottom pf.refine_fuel (s0 :: srest) =
          closest :: rest →
        (commit_record cfg ch top st closest rest).next_expected_page_bottom ≤
          st.expected_page_bottom →
        paginate_pass cfg pf ch top (fuel + 1) st = .error "infinite loop detected") := by
  constructor
  · intro fuel st out hcuts h r hrout
    rcases paginate_pass_cuts_progress cfg pf ch top fuel st out h r hrout with hmem | hlt
    · rw [hcuts] at hmem
      exact absurd hmem (List.not_mem_nil r)
    · exact hlt
  · intro fuel st s0 closest srest rest hstack hrefine hle
    exact paginate_pass_loop_error cfg pf ch top fuel st s0 closest srest rest
      hstack hrefine hle

/-- Witness for C3: on the `okTree` pass the single committed cut advances
the boundary (100 < 105), and the `loopState` pass raises the loop error. -/
theorem paginate_boundary_progress_witness :
    okRec.expected_page_bottom < okRec.next_expected_page_bottom ∧
    paginate_pass defaultConfig ⟨100, 100⟩ 100 0 101 loopState =
      .error "infinite loop detected" :=
  ⟨(paginate_boundary_progress defaultConfig ⟨100, 100⟩ 100 0).1 100 okState okOut rfl rfl
      okRec (by decide),
   (paginate_boundary_progress defaultConfig ⟨100, 100⟩ 100 0).2 100 loopState loopCut
      loopCut [] [] rfl rfl (by decide)⟩

/-- C4 (amended): over a container pass starting from a fresh accumulator in
which no `<header page>` reset fires (the ghost reset counter is unchanged),
the produced page-number sequence increases by exactly 1 from each page to
the next. -/
theorem paginate_pages_increment (cfg : Config) (pf : PassFuel) (ch top : ℤ)
    (fuel : Nat) (st out : PassSt)
    (hcuts : st.cuts = []) (hfirst : st.first = none)
    (h : paginate_pass cfg pf ch top fuel st = .ok out)
    (hres : out.scan.page_resets = st.scan.page_resets) :
    List.Chain' (fun a b => b = a + 1) (pagesOf out) := by
  rcases paginate_pass_chain cfg pf ch top fuel st out h hres (Or.inl ⟨hcuts, hfirst⟩) with
    ⟨hc, hf⟩ | ⟨_, hch, _⟩
  · simp [pagesOf, hc, hf]
  · exact hch

/-- Witness for C4: the `okTree` pass commits one cut with no header reset
and its page sequence `[1, 2]` climbs by one. -/
theorem paginate_pages_increment_witness :
    List.Chain' (fun a b => b = a + 1) (pagesOf okOut) :=
  paginate_pages_increment defaultConfig ⟨100, 100⟩ 100 0 100 okState okOut rfl rfl rfl rfl

/-- Counterexample to C4 as stated: the `resetTree` container run succeeds
with page sequence `[1, 2, 1]` — the nested `<header page="1">` inside the
`DIV` resets the page counter between the first and the second committed
cut, so the produced page numbers do not increase by 1 across the
container. -/
theorem nested_header_breaks_page_increment :
    (paginate_container defaultConfig ⟨100, 100⟩ 100 0 0 resetTree initScanSt
        100).map pagesOf = .ok [1, 2, 1] ∧
    ¬ List.Chain' (fun a b => b = a + 1) ([1, 2, 1] : List Int) := by
  constructor
  · have h0 := paginate_container_eq defaultConfig ⟨100, 100⟩ 100 0 0 resetTree initScanSt
      100 [cutP1] rScan0 rfl
    have h1 := paginate_pass_step defaultConfig ⟨100, 100⟩ 100 0 99 rSt1 cutP1 cutP1 [] []
      rfl rfl (by decide)
    have h2 := paginate_pass_step defaultConfig ⟨100, 100⟩ 100 0 98 rSt2 cutP2 cutP2
      [cutDIV] [cutDIV] rfl rfl (by decide)
    have h3 := paginate_pass_stack_nil defaultConfig ⟨100, 100⟩ 100 0 97 rSt3 rfl
    have e1 : pass_step_state defaultConfig ⟨100, 100⟩ 100 0 rSt1 cutP1 [] = rSt2 := rfl
    have e2 : pass_step_state defaultConfig ⟨100, 100⟩ 100 0 rSt2 cutP2 [cutDIV] = rSt3 := rfl
    rw [e1] at h1
    rw [e2] at h2
    have key : paginate_container defaultConfig ⟨100, 100⟩ 100 0 0 resetTree initScanSt 100
        = .ok rSt3 := by
      rw [h0]
      calc paginate_pass defaultConfig ⟨100, 100⟩ 100 0 100
            { scan := rScan0, expected_page_bottom := 0 + 100 + 0,
              first := none, cuts := [], stack := [cutP1] }
          = paginate_pass defaultConfig ⟨100, 100⟩ 100 0 99 rSt2 := h1
        _ = paginate_pass defaultConfig ⟨100, 100⟩ 100 0 98 rSt3 := h2
        _ = .ok rSt3 := h3
    rw [key]
    rfl
  · simp only [List.chain'_cons, List.chain'_singleton, and_true]
    omega



/-! ### The template renderer: store non-mutation and placeholder
substitution (claim C8) -/

/-- Store update at one id leaves every other id unchanged. -/
theorem modify_get_ne (d : TDom) (i k : Nat) (f : TElem → TElem) (h : k ≠ i) :
    (d.modify i f).get? k = d.get? k := by
  unfold TDom.modify
  cases he : d.elems.get? i with
  | none => rfl
  | some e =>
    simp only [TDom.get?]
    rw [List.get?_set_ne _ _ (fun hik => h hik.symm)]

/-- Store update at an existing id applies the function to that element. -/
theorem modify_get_self (d : TDom) (i : Nat) (f : TElem → TElem) (e : TElem)
    (h : d.get? i = some e) :
    (d.modify i f).get? i = some (f e) := by
  unfold TDom.modify
  rw [show d.elems.get? i = some e from h]
  simp only [TDom.get?]
  rw [List.get?_set_eq_of_lt]
  exact (List.get?_eq_some.mp h).1

/-- Setting an attribute on one element leaves every other id unchanged. -/
theorem setAttribute_get_ne (d : TDom) (j k : Nat) (n v : String) (h : k ≠ j) :
    (d.setAttribute j n v).get? k = d.get? k :=
  modify_get_ne d j k _ h

/-- Copying a whole attribute list onto element `j` leaves other ids unchanged. -/
theorem foldl_setAttribute_get_ne (j k : Nat) (h : k ≠ j) :
    ∀ (attrs : List (String × String)) (d : TDom),
      (attrs.foldl (fun d2 a => TDom.setAttribute d2 j a.1 a.2) d).get? k = d.get? k
  | [], d => rfl
  | a :: rest, d => by
      simp only [List.foldl_cons]
      rw [foldl_setAttribute_get_ne j k h rest _]
      exact setAttribute_get_ne d j k a.1 a.2 h

/-- Copying a whole attribute list onto element `j` folds `setAttrList` over
its attribute list. -/
theorem foldl_setAttribute_get_self (j : Nat) :
    ∀ (attrs : List (String × String)) (d : TDom) (e : TElem),
      d.get? j = some e →
      (attrs.foldl (fun d2 a => TDom.setAttribute d2 j a.1 a.2) d).get? j =
        some { e with attrs := attrs.foldl (fun l a => setAttrList l a.1 a.2) e.attrs }
  | [], d, e, h => h
  | a :: rest, d, e, h => by
      simp only [List.foldl_cons]
      exact foldl_setAttribute_get_self j rest _ _
        (modify_get_self d j _ e h)

/-- DOM `setAttribute` with a fresh name appends the pair. -/
theorem setAttrList_new (attrs : List (String × String)) (a : String × String)
    (h : a.1 ∉ attrs.map Prod.fst) :
    setAttrList attrs a.1 a.2 = attrs ++ [a] := by
  unfold setAttrList
  rw [if_neg]
  intro hany
  rcases List.any_eq_true.mp hany with ⟨b, hb, hba⟩
  exact h (List.mem_map.mpr ⟨b, hb, of_decide_eq_true hba⟩)

/-- Folding `setAttrList` over attributes with distinct names disjoint from
the accumulator appends them in order. -/
theorem foldl_setAttrList_acc :
    ∀ (attrs acc : List (String × String)),
      (attrs.map Prod.fst).Nodup →
      (∀ n ∈ attrs.map Prod.fst, n ∉ acc.map Prod.fst) →
      attrs.foldl (fun l a => setAttrList l a.1 a.2) acc = acc ++ attrs
  | [], acc, _, _ => by simp
  | a :: rest, acc, hnd, hdisj => by
      rw [List.map_cons] at hnd
      have hcons := List.nodup_cons.mp hnd
      simp only [List.foldl_cons]
      have ha : a.1 ∉ acc.map Prod.fst := hdisj a.1 (by simp)
      rw [setAttrList_new acc a ha]
      rw [foldl_setAttrList_acc rest (acc ++ [a]) hcons.2 ?_]
      · simp
      · intro n hn
        simp only [List.map_append, List.mem_append]
        rintro (hacc | hsing)
        · exact hdisj n (by simp [hn]) hacc
        · have hna : n = a.1 := by simpa using hsing
          rw [hna] at hn
          exact hcons.1 hn

/-- Copying an attribute list with distinct names onto an empty element
reproduces it exactly. -/
theorem foldl_setAttrList_nodup (attrs : List (String × String))
    (h : (attrs.map Prod.fst).Nodup) :
    attrs.foldl (fun l a => setAttrList l a.1 a.2) [] = attrs := by
  simpa using foldl_setAttrList_acc attrs [] h (by simp)

/-- The placeholder regex cannot match at a character other than a brace. -/
theorem matchPlaceholderAt_cons_ne (w : List Char) (c : Char) (s : List Char)
    (hc : c ≠ '\x7b') :
    matchPlaceholderAt w (c :: s) = none := by
  unfold matchPlaceholderAt
  split
  · next rest heq =>
    exact absurd (List.cons.inj heq).1 hc
  · rfl

/-- Skipping a brace-free prefix shifts the leftmost placeholder match. -/
theorem findPlaceholder_append_no_brace (w : List Char) :
    ∀ (l s : List Char), (∀ c ∈ l, c ≠ '\x7b') →
      findPlaceholder w (l ++ s) =
        (findPlaceholder w s).map (fun p => (p.1 + l.length, p.2))
  | [], s, _ => by
      simp only [List.nil_append, List.length_nil]
      cases findPlaceholder w s with
      | none => rfl
      | some p => simp
  | c :: l, s, h => by
      have hc : c ≠ '\x7b' := h c (by simp)
      rw [List.cons_append]
      show (match matchPlaceholderAt w (c :: (l ++ s)) with
        | some len => some (0, len)
        | none => (findPlaceholder w (l ++ s)).map
            (fun p : Nat × Nat => (p.1 + 1, p.2))) = _
      rw [matchPlaceholderAt_cons_ne w c (l ++ s) hc]
      rw [findPlaceholder_append_no_brace w l s (fun x hx => h x (by simp [hx]))]
      cases findPlaceholder w s with
      | none => rfl
      | some p =>
        simp only [Option.map_some', List.length_cons, Option.some.injEq, Prod.mk.injEq, and_true]
        omega

/-- The canonical `page` placeholder matches at its own head, length 10. -/
theorem matchPlaceholderAt_page (t : List Char) :
    matchPlaceholderAt "page".data ("\x7b\x7b page \x7d\x7d".data ++ t) = some 10 := rfl

/-- The canonical `num_pages` placeholder matches at its own head, length 15. -/
theorem matchPlaceholderAt_num_pages (t : List Char) :
    matchPlaceholderAt "num_pages".data ("\x7b\x7b num_pages \x7d\x7d".data ++ t) =
      some 15 := rfl

/-- Leftmost match of the `page` placeholder at the head of a string. -/
theorem findPlaceholder_page (t : List Char) :
    findPlaceholder "page".data ("\x7b\x7b page \x7d\x7d".data ++ t) = some (0, 10) := rfl

/-- Leftmost match of the `num_pages` placeholder at the head of a string. -/
theorem findPlaceholder_num_pages (t : List Char) :
    findPlaceholder "num_pages".data ("\x7b\x7b num_pages \x7d\x7d".data ++ t) =
      some (0, 15) := rfl

/-- JS first-match replacement on `pre ++ placeholder ++ tail` with a
brace-free `pre` rewrites exactly the placeholder. -/
theorem jsReplaceFirst_append (w rep : String) (pre ph t : List Char)
    (hpre : ∀ c ∈ pre, c ≠ '\x7b')
    (hfind : findPlaceholder w.data (ph ++ t) = some (0, ph.length)) :
    jsReplaceFirst w rep (String.mk (pre ++ (ph ++ t))) =
      String.mk (pre ++ (rep.data ++ t)) := by
  unfold jsReplaceFirst
  have h1 : findPlaceholder w.data (pre ++ (ph ++ t)) =
      some (pre.length, ph.length) := by
    rw [findPlaceholder_append_no_brace w.data pre (ph ++ t) hpre, hfind]
    simp
  rw [show (String.mk (pre ++ (ph ++ t))).data = pre ++ (ph ++ t) from rfl]
  simp only [h1]
  congr 1
  rw [List.take_left]
  rw [show pre.length + ph.length = (pre ++ ph).length by simp]
  rw [show pre ++ (ph ++ t) = (pre ++ ph) ++ t from (List.append_assoc pre ph t).symm]
  rw [List.drop_left]
  simp [List.append_assoc]

/-- Unfolding `copy_element_empty` at an existing unmarked element. -/
theorem copy_element_empty_eq (d : TDom) (i : Nat) (el : TElem)
    (hel : d.get? i = some el) :
    copy_element_empty d i false =
      (el.attrs.foldl (fun d2 a => TDom.setAttribute d2 d.elems.length a.1 a.2)
        ⟨d.elems ++ [⟨el.tagName, [], ""⟩]⟩, d.elems.length) := by
  simp only [copy_element_empty, hel, TDom.createElement, Bool.false_eq_true, if_false]

/-- Unfolding `clone_element` at an existing element. -/
theorem clone_element_eq (d : TDom) (i : Nat) (el : TElem) (vars : List TemplateVar)
    (hel : d.get? i = some el) :
    clone_element d (some i) vars =
      ((copy_element_empty d i false).1.modify (copy_element_empty d i false).2
          (fun e => { e with innerHTML := vars.foldl (fun h v => jsReplaceFirst v.word v.rep h) el.innerHTML }),
       some (copy_element_empty d i false).2) := by
  rcases hc : copy_element_empty d i false with ⟨d1, j⟩
  simp only [clone_element, hel, hc]

/-- Full expansion of `clone_element`: fresh element appended at the store
end, attributes copied, substituted markup installed. -/
theorem clone_element_expand (d : TDom) (i : Nat) (el : TElem) (vars : List TemplateVar)
    (hel : d.get? i = some el) :
    clone_element d (some i) vars =
      ((el.attrs.foldl (fun d2 a => TDom.setAttribute d2 d.elems.length a.1 a.2)
          ⟨d.elems ++ [⟨el.tagName, [], ""⟩]⟩).modify d.elems.length
          (fun e => { e with innerHTML := vars.foldl (fun h v => jsReplaceFirst v.word v.rep h) el.innerHTML }),
       some d.elems.length) := by
  rw [clone_element_eq d i el vars hel, copy_element_empty_eq d i el hel]

/-- C8: cloning a header/footer template whose markup is
`pre` then the `page` placeholder then `mid` then the `num_pages`
placeholder then `post` (with no stray opening brace before or between the
placeholders, none in the page-number text, and distinct attribute names)
creates the clone at the end of the store with the template tag and
attributes and with the two placeholders replaced by the page number and
the page count — and every pre-existing element of the store, the original
template included, is left unchanged. -/
theorem clone_element_substitutes (d : TDom) (i : Nat) (el : TElem)
    (pre mid post : List Char) (page : Int) (np : Nat)
    (hel : d.get? i = some el)
    (hhtml : el.innerHTML = String.mk
      (pre ++ ("\x7b\x7b page \x7d\x7d".data ++ (mid ++
        ("\x7b\x7b num_pages \x7d\x7d".data ++ post)))))
    (hpre : ∀ c ∈ pre, c ≠ '\x7b')
    (hmid : ∀ c ∈ mid, c ≠ '\x7b')
    (hrep : ∀ c ∈ (toString page).data, c ≠ '\x7b')
    (hnodup : (el.attrs.map Prod.fst).Nodup) :
    (clone_element d (some i) (create_page_variables page np)).2 =
      some d.elems.length ∧
    (clone_element d (some i) (create_page_variables page np)).1.get? d.elems.length =
      some ⟨el.tagName, el.attrs,
        String.mk (pre ++ ((toString page).data ++
          (mid ++ ((toString np).data ++ post))))⟩ ∧
    ∀ k, k < d.elems.length →
      (clone_element d (some i) (create_page_variables page np)).1.get? k = d.get? k := by
  have hstep1 : jsReplaceFirst "page" (toString page) el.innerHTML =
      String.mk (pre ++ ((toString page).data ++ (mid ++
        ("\x7b\x7b num_pages \x7d\x7d".data ++ post)))) := by
    rw [hhtml]
    exact jsReplaceFirst_append "page" (toString page) pre _ _ hpre
      (findPlaceholder_page _)
  have hpre2 : ∀ c ∈ pre ++ ((toString page).data ++ mid), c ≠ '\x7b' := by
    intro c hc
    rcases List.mem_append.mp hc with h1 | h12
    · exact hpre c h1
    · rcases List.mem_append.mp h12 with h2 | h3
      · exact hrep c h2
      · exact hmid c h3
  have hstep2 : jsReplaceFirst "num_pages" (toString np)
      (String.mk (pre ++ ((toString page).data ++ (mid ++
        ("\x7b\x7b num_pages \x7d\x7d".data ++ post))))) =
      String.mk (pre ++ ((toString page).data ++
        (mid ++ ((toString np).data ++ post)))) := by
    have ha1 : pre ++ ((toString page).data ++ (mid ++
        ("\x7b\x7b num_pages \x7d\x7d".data ++ post))) =
        (pre ++ ((toString page).data ++ mid)) ++
          ("\x7b\x7b num_pages \x7d\x7d".data ++ post) := by
      simp [List.append_assoc]
    have ha2 : pre ++ ((toString page).data ++ (mid ++ ((toString np).data ++ post))) =
        (pre ++ ((toString page).data ++ mid)) ++ ((toString np).data ++ post) := by
      simp [List.append_assoc]
    rw [ha1, ha2]
    exact jsReplaceFirst_append "num_pages" (toString np) _ _ _ hpre2
      (findPlaceholder_num_pages _)
  have hfold : (create_page_variables page np).foldl
      (fun h v => jsReplaceFirst v.word v.rep h) el.innerHTML =
      String.mk (pre ++ ((toString page).data ++
        (mid ++ ((toString np).data ++ post)))) := by
    show jsReplaceFirst "num_pages" (toString np)
        (jsReplaceFirst "page" (toString page) el.innerHTML) = _
    rw [hstep1, hstep2]
  have hd1 : (⟨d.elems ++ [⟨el.tagName, [], ""⟩]⟩ : TDom).get? d.elems.length =
      some ⟨el.tagName, [], ""⟩ := by
    simp only [TDom.get?]
    exact List.get?_concat_length _ _
  have hd2 := foldl_setAttribute_get_self d.elems.length el.attrs _ _ hd1
  rw [foldl_setAttrList_nodup el.attrs hnodup] at hd2
  have hkey := clone_element_expand d i el (create_page_variables page np) hel
  refine ⟨?_, ?_, ?_⟩
  · simp only [hkey]
  · simp only [hkey]
    rw [modify_get_self _ _ _ _ hd2]
    show some (TElem.mk el.tagName el.attrs ((create_page_variables page np).foldl
        (fun h v => jsReplaceFirst v.word v.rep h) el.innerHTML)) = _
    rw [hfold]
  · intro k hk
    simp only [hkey]
    rw [modify_get_ne _ _ _ _ (Nat.ne_of_lt hk)]
    rw [foldl_setAttribute_get_ne d.elems.length k (Nat.ne_of_lt hk)]
    show (⟨d.elems ++ [⟨el.tagName, [], ""⟩]⟩ : TDom).get? k = d.get? k
    simp only [TDom.get?]
    exact List.get?_append hk

/-- Witness for C8: cloning the `c8dom` footer template for page 3 of 7
yields `"X: 3 / 7"` in a fresh element and leaves the template untouched. -/
theorem clone_element_substitutes_witness :
    (clone_element c8dom (some 0) (create_page_variables 3 7)).2 = some 1 ∧
    (clone_element c8dom (some 0) (create_page_variables 3 7)).1.get? 1 =
      some ⟨"FOOTER", [("class", "foot")], "X: 3 / 7"⟩ ∧
    (clone_element c8dom (some 0) (create_page_variables 3 7)).1.get? 0 = c8dom.get? 0 := by
  have h := clone_element_substitutes c8dom 0
    ⟨"FOOTER", [("class", "foot")], "X: \x7b\x7b page \x7d\x7d / \x7b\x7b num_pages \x7d\x7d"⟩
    "X: ".data " / ".data [] 3 7 rfl rfl (by decide) (by decide) (by decide) (by decide)
  exact ⟨h.1, h.2.1, h.2.2 0 (by decide)⟩

end Claims
